import Mathlib

/-!
Verification of the investment-tracker record store, filter, migration,
persistence and export logic, shallowly embedded from `src/app.py` (the
"basic" variant) and `src/investment_catalogue_app.py` (the "extended"
variant).  Records are Python dicts, modelled as ordered association
lists; the persisted document is JSON, modelled by the `Json` type.
Tk view-refresh code is presentation layer and is not modelled.
-/

set_option autoImplicit false

namespace Wealth

/-- A stored field value: either a plain string, or a list of member
identifiers (the `holders` attribute).  These are the only value shapes
the applications ever store in a record. -/
inductive Val where
  | s (v : String) : Val
  | ls (v : List String) : Val
deriving DecidableEq, Repr

/-- `d.get(k)` on a Python dict modelled as an ordered association list:
first-occurrence lookup, `none` on a missing key. -/
def alGet {α : Type} (r : List (String × α)) (k : String) : Option α :=
  (r.find? (fun kv => kv.1 == k)).map (·.2)

/-- `k in d`: Python key-membership test on a dict. -/
def alHasKey {α : Type} (r : List (String × α)) (k : String) : Bool :=
  r.any (fun kv => kv.1 == k)

/-- `d[k] = v`: replace the value at the first occurrence of `k` keeping
its position, or append the pair (Python dict item assignment preserves
insertion order for existing keys and appends new keys). -/
def alSet {α : Type} : List (String × α) → String → α → List (String × α)
  | [], k, v => [(k, v)]
  | kv :: rest, k, v => if kv.1 == k then (k, v) :: rest else kv :: alSet rest k v

/-- `d.pop(k, ...)`: remove the first occurrence of key `k`. -/
def alPop {α : Type} (r : List (String × α)) (k : String) : List (String × α) :=
  r.eraseP (fun kv => kv.1 == k)

/-- `d.update(nd)`: Python `dict.update`, item assignment for each pair
of `nd` in order. -/
def alUpdate {α : Type} (r nd : List (String × α)) : List (String × α) :=
  nd.foldl (fun acc kv => alSet acc kv.1 kv.2) r

/-- A record is a Python dict from field name to stored value. -/
abbrev Record := List (String × Val)

/-- One category of the store: its declared schema (`columns`) and its
record list (`data`), as in `initialize_data_structures`. -/
structure Category where
  columns : List String
  data : List Record
deriving DecidableEq, Repr

/-- The data store: an ordered map from category name to category,
mirroring the top-level Python dict `self.data_store`. -/
abbrev Store := List (String × Category)

/-- `initialize_data_structures` (`app.py:105-120`, identical category
names and columns in `investment_catalogue_app.py:53-99`). -/
def initialize_data_structures : Store :=
  [ ("family_info", ⟨["Name", "Aadhar No.", "PAN no", "Voter id no"], []⟩),
    ("bank_accounts", ⟨["Holders", "Account Type", "BANK NAME", "ACCOUNT NO"], []⟩),
    ("fixed_deposits", ⟨["Holders", "Bank Name", "Rate (%)", "Number of Days",
      "Start Date", "End Date", "Amount"], []⟩),
    ("demat_accounts", ⟨["Holders", "Provider", "Account Number"], []⟩),
    ("mutual_funds", ⟨["Holders", "Provider", "Fund Name", "Folio Number"], []⟩),
    ("investments", ⟨["Holders", "BANK NAME", "ACCOUNT NO", "Details"], []⟩),
    ("insurance", ⟨["Holders", "COMPANY", "POLICY NO", "SUM ASSURED"], []⟩),
    ("locker", ⟨["Holders", "BANK NAME", "LOCKER NO"], []⟩),
    ("vehicle_details", ⟨["Owners", "VEHICLE MAKE", "REGISTRATION NO"], []⟩),
    ("property", ⟨["Owners", "PROPERTY DETAILS", "LOCATION"], []⟩) ]

/-- `get_member_by_id` (`app.py:301-302`): first member of
`family_info.data` whose `id` field equals the given identifier. -/
def get_member_by_id (store : Store) (member_id : String) : Option Record :=
  match (alGet store "family_info").map (·.data) with
  | none => none
  | some members => members.find? (fun m => alGet m "id" == some (.s member_id))

/-- Apply `f` to the category stored under `sec` (Python mutates the one
entry of the top-level dict; keys are unique in every store the
applications build). -/
def modifyCat (store : Store) (sec : String) (f : Category → Category) : Store :=
  store.map (fun sc => if sc.1 == sec then (sc.1, f sc.2) else sc)

/-- Update in place the first record satisfying `p` (Python finds the
record object with `next(...)` and mutates it). -/
def updateFirst (p : Record → Bool) (f : Record → Record) : List Record → List Record
  | [] => []
  | r :: rs => if p r then f r :: rs else r :: updateFirst p f rs

/-- `save_member` (`app.py:317-324`; identically
`investment_catalogue_app.py:285-293`): with an identifier, merge
`new_data` into the member found by id — silently nothing if the lookup
misses; without one, assign a fresh id and append.  `gen` stands for the
`uuid.uuid4()` string. -/
def save_member (store : Store) (gen : String) (new_data : Record)
    (member_id : Option String) : Store :=
  match member_id with
  | some mid =>
      modifyCat store "family_info" (fun cat =>
        { cat with data := (updateFirst
            (fun m => alGet m "id" == some (.s mid))
            (fun m => alUpdate m new_data) cat.data) })
  | none =>
      modifyCat store "family_info" (fun cat =>
        { cat with data := cat.data ++ [alSet new_data "id" (.s gen)] })

/-- `save_asset` (`app.py:359-367`; identically
`investment_catalogue_app.py:337-346`): with an identifier, merge
`new_data` into the asset of `section_title` found by id — silently
nothing if the lookup misses; without one, assign a fresh id and
append. -/
def save_asset (store : Store) (gen : String) (section_title : String)
    (new_data : Record) (asset_id : Option String) : Store :=
  match asset_id with
  | some aid =>
      modifyCat store section_title (fun cat =>
        { cat with data := (updateFirst
            (fun a => alGet a "id" == some (.s aid))
            (fun a => alUpdate a new_data) cat.data) })
  | none =>
      modifyCat store section_title (fun cat =>
        { cat with data := cat.data ++ [alSet new_data "id" (.s gen)] })

/-- Python `needle in hay` for strings: substring containment. -/
def isSubstr (needle hay : String) : Bool :=
  hay.data.tails.any (fun t => needle.data.isPrefixOf t)

/-- One iteration of the holders-cleanup loop of
`delete_member_from_button` (`app.py:340-342`): if the record has a
`holders` entry containing the id, `list.remove` deletes its FIRST
occurrence.  On a (malformed) string-valued `holders` whose text
contains the id, `.remove` raises `AttributeError`, modelled as
`none`. -/
def pruneHolders (mid : String) (rec : Record) : Option Record :=
  match alGet rec "holders" with
  | some (.ls hs) =>
      some (if hs.contains mid then alSet rec "holders" (.ls (hs.erase mid)) else rec)
  | some (.s s) => if isSubstr mid s then none else some rec
  | none => some rec

/-- `delete_member_from_button` (`app.py:326-343`), past the selection
and confirmation dialogs: drop every `family_info` record carrying the
member's id, then run the holders cleanup over every category's
records.  (`delete_member`, `investment_catalogue_app.py:295-321`, is
the same except that its cleanup loop skips categories without a
Holders/Owners column — `family_info` — which holds no `holders` keys
anyway.) -/
def delete_member_from_button (store : Store) (mid : String) : Option Store :=
  match get_member_by_id store mid with
  | none => some store
  | some _member =>
      let store1 := modifyCat store "family_info" (fun cat =>
        { cat with data := cat.data.filter (fun m => !(alGet m "id" == some (.s mid))) })
      store1.mapM (fun sc => do
        let data' ← sc.2.data.mapM (pruneHolders mid)
        pure (sc.1, { sc.2 with data := data' }))

/-- `member_id in asset.get('holders', [])`
(`app.py:286`, `investment_catalogue_app.py:256`): list membership on a
holders list, substring test on a (malformed) string, false when the key
is absent. -/
def holdersContains (mid : String) : Option Val → Bool
  | some (.ls hs) => hs.contains mid
  | some (.s s) => isSubstr mid s
  | none => false

/-- The spec's `assetsHeldBy`: the per-member aggregation of
`display_member_assets` (`app.py:284-286`) — every non-`family_info`
category's records whose `holders` contains the member id, in category
order then insertion order. -/
def assetsHeldBy (store : Store) (mid : String) : List (String × Record) :=
  store.foldr (fun sc acc =>
    if sc.1 == "family_info" then acc
    else (sc.2.data.filter
            (fun a => holdersContains mid (alGet a "holders"))).map (fun a => (sc.1, a)) ++ acc) []

/-- Python `str.lower()` (ASCII-faithful). -/
def lowerStr (s : String) : String :=
  String.mk (s.data.map Char.toLower)

/-- Python `str(value)` of a stored value: a string prints as itself, a
holders list prints in list-repr form `['a', 'b']`. -/
def pyStr : Val → String
  | .s v => v
  | .ls xs => "[" ++ String.intercalate ", " (xs.map (fun x => "'" ++ x ++ "'")) ++ "]"

/-- `filter_treeview` (`app.py:241-248`), reduced to its query: lowercase
the search term; an empty term yields all records of the category; else
keep the records one of whose values' string representation, lowercased,
contains the lowered term. -/
def filter_treeview (cat : Category) (term : String) : List Record :=
  let search_term := lowerStr term
  if search_term = "" then cat.data
  else cat.data.filter (fun rec =>
    rec.any (fun kv => isSubstr search_term (lowerStr (pyStr kv.2))))

/-- Holder-name resolution of `export_to_csv` (`app.py:443-445`):
`get_member_by_id(hid).get('Name', '?') if get_member_by_id(hid) else '?'`.
A member whose `Name` is a (malformed) list makes the later
`', '.join` raise `TypeError`, modelled as `none`. -/
def export_holder_name (store : Store) (hid : String) : Option String :=
  match get_member_by_id store hid with
  | none => some "?"
  | some m =>
      match alGet m "Name" with
      | none => some "?"
      | some (.s n) => some n
      | some (.ls _) => none

/-- `for hid in holder_ids`: iterating a holders list yields its
elements; iterating a (malformed) string yields its characters. -/
def holderIdList : Val → List String
  | .ls hs => hs
  | .s s => s.data.map (fun c => String.mk [c])

/-- Per-record body of `export_to_csv` (`app.py:440-448`): on records
with a `holders` key, pop it, resolve the ids to names, store the
comma-joined names under the declared holder column (`Owners` if the
schema has it, else `Holders`); finally pop `id`. -/
def export_record (store : Store) (columns : List String) (r : Record) : Option Record :=
  if alHasKey r "holders" then do
    let hs := holderIdList ((alGet r "holders").getD (.ls []))
    let names ← hs.mapM (export_holder_name store)
    let r1 := alPop r "holders"
    let holderCol := if columns.contains "Owners" then "Owners" else "Holders"
    let r2 := alSet r1 holderCol (.s (String.intercalate ", " names))
    pure (alPop r2 "id")
  else
    pure (alPop r "id")

/-- One iteration of the per-category export loop (`app.py:436-455`):
categories without records are skipped (`if not content['data']:
continue`, and again `if not records_to_write: continue`); otherwise the
file carries the category name, the header — the key list of the FIRST
transformed record (`fieldnames = list(records_to_write[0].keys())`) —
and the transformed rows. -/
def export_section (store : Store) (sc : String × Category) :
    Option (Option (String × List String × List Record)) :=
  if sc.2.data.isEmpty then pure none
  else do
    let rows ← sc.2.data.mapM (export_record store sc.2.columns)
    match rows with
    | [] => pure (none : Option (String × List String × List Record))
    | first :: _ => pure (some (sc.1, first.map (·.1), rows))

/-- `export_to_csv` (`app.py:428-458`), modulo file IO: one output file
per category with records, in store order. -/
def export_to_csv (store : Store) : Option (List (String × List String × List Record)) := do
  let entries ← store.mapM (export_section store)
  pure entries.reduceOption

end Wealth

/-- A parsed JSON document, as produced by `json.load`.  Objects keep key
order (Python dicts preserve insertion order). -/
inductive Json where
  | str (s : String) : Json
  | num (n : Int) : Json
  | bool (b : Bool) : Json
  | null : Json
  | arr (elems : List Json) : Json
  | obj (entries : List (String × Json)) : Json

namespace Wealth

/-- Python `someString == jsonValue`: true only when the value is a string
with the same contents (a string never equals a number, list, dict,
boolean or `None`). -/
def jsonEqStr (x : Json) (s : String) : Bool :=
  match x with
  | .str t => t == s
  | _ => false

/-- Python `needle in container` on a parsed JSON value: key membership
for a dict, element equality for a list, substring for a string;
`TypeError` (`none`) for numbers, booleans and `None`. -/
def pyContains (needle : String) : Json → Option Bool
  | .obj kvs => some (kvs.any (fun kv => kv.1 == needle))
  | .arr xs => some (xs.any (fun x => jsonEqStr x needle))
  | .str s => some (isSubstr needle s)
  | _ => none

/-- `container[k]` with a string key: dict lookup; on any other value the
subscript raises (`none`). -/
def jGet (doc : Json) (k : String) : Option Json :=
  match doc with
  | .obj kvs => alGet kvs k
  | _ => none

/-- Python `isinstance(v, list)` on a parsed JSON value. -/
def jsonIsArr : Json → Bool
  | .arr _ => true
  | _ => false

/-- The identifier generator: `str(uuid.uuid4())`, modelled as a counter
of distinct fresh strings. -/
def genId (g : Nat) : String := "uuid-" ++ toString g

/-- The JSON document of a stored value (`json.dump` encoding). -/
def jsonOfVal : Val → Json
  | .s v => .str v
  | .ls xs => .arr (xs.map .str)

/-- The JSON document of a record. -/
def jsonOfRecord (r : Record) : Json :=
  .obj (r.map (fun kv => (kv.1, jsonOfVal kv.2)))

/-- The JSON document of a category, as `initialize_data_structures`
lays it out and `json.dump` writes it. -/
def jsonOfCategory (c : Category) : Json :=
  .obj [("columns", .arr (c.columns.map .str)), ("data", .arr (c.data.map jsonOfRecord))]

/-- `serialize` composed with `deserialize`: `_write_to_file`
(`app.py:402-408`) dumps the store's nested dicts, lists and strings
with `json.dump` and `json.load` parses them back; on these values the
composition is the identity on document structure, so the round trip is
modelled as the JSON document of the store. -/
def jsonOfStore (s : Store) : Json :=
  .obj (s.map (fun sc => (sc.1, jsonOfCategory sc.2)))

/-- Extract a plain string list from a JSON array of strings. -/
def strListOfJson (xs : List Json) : Option (List String) :=
  xs.mapM (fun x => match x with | Json.str s => some s | _ => (none : Option String))

/-- Read a stored value back from its JSON document. -/
def valOfJson : Json → Option Val
  | .str v => some (.s v)
  | .arr xs => (strListOfJson xs).map Val.ls
  | _ => none

/-- Read a record back from its JSON document. -/
def recordOfJson : Json → Option Record
  | .obj kvs => kvs.mapM (fun kv => (valOfJson kv.2).map (fun v => (kv.1, v)))
  | _ => none

/-- Read a category back from its JSON document. -/
def categoryOfJson : Json → Option Category
  | .obj [("columns", .arr cs), ("data", .arr ds)] => do
      let cols ← strListOfJson cs
      let data ← ds.mapM recordOfJson
      pure ⟨cols, data⟩
  | _ => none

/-- Read a whole store back from its JSON document. -/
def storeOfJson : Json → Option Store
  | .obj kvs => kvs.mapM (fun kv => (categoryOfJson kv.2).map (fun c => (kv.1, c)))
  | _ => none

/-- The default empty store as a JSON document. -/
def initJson : Json := jsonOfStore initialize_data_structures

/-- The `name`-to-`Name` rename of `transform_old_data_format`
(`investment_catalogue_app.py:404-405`): when the record has `name` and
not `Name`, `pop` removes `name` and the assignment appends `Name` with
its value.  (Non-dict legacy records make the membership test or item
assignment of the migration raise, modelled as `none` in
`migrateMemberRec`, except for strings/lists that pass Python's `in`
and need no assignment.) -/
def memberRename (kvs1 : List (String × Json)) : List (String × Json) :=
  if alHasKey kvs1 "name" && !(alHasKey kvs1 "Name") then
    match alGet kvs1 "name" with
    | some v => alSet (alPop kvs1 "name") "Name" v
    | none => kvs1
  else kvs1

/-- Member-record migration step of `transform_old_data_format`, object
case (`investment_catalogue_app.py:400-406`): assign an id when the
record lacks one, then apply the `name`-to-`Name` rename. -/
def migrateMemberRec (g : Nat) (rec : Json) : Option (Json × Nat) :=
  match rec with
  | .obj kvs =>
      some (.obj (memberRename
          (if alHasKey kvs "id" then kvs else alSet kvs "id" (.str (genId g)))),
        if alHasKey kvs "id" then g else g + 1)
  | .str s =>
      if isSubstr "id" s then
        if isSubstr "name" s && !(isSubstr "Name" s) then none else some (rec, g)
      else none
  | .arr xs =>
      if xs.any (fun x => jsonEqStr x "id") then
        if (xs.any (fun x => jsonEqStr x "name")) && !(xs.any (fun x => jsonEqStr x "Name")) then
          none
        else some (rec, g)
      else none
  | _ => none

/-- Asset-record migration step of `transform_old_data_format`
(`investment_catalogue_app.py:413-416`): assign an id when the record
lacks one; otherwise the record is kept verbatim. -/
def migrateAssetRec (g : Nat) (rec : Json) : Option (Json × Nat) :=
  match rec with
  | .obj kvs =>
      if alHasKey kvs "id" then some (rec, g)
      else some (.obj (alSet kvs "id" (.str (genId g))), g + 1)
  | .str s => if isSubstr "id" s then some (rec, g) else none
  | .arr xs => if xs.any (fun x => jsonEqStr x "id") then some (rec, g) else none
  | _ => none

/-- Run a record-migration step over a list, threading the id
generator. -/
def migrateList (f : Nat → Json → Option (Json × Nat)) :
    Nat → List Json → Option (List Json × Nat)
  | g, [] => some ([], g)
  | g, x :: xs => do
      let (y, g1) ← f g x
      let (ys, g2) ← migrateList f g1 xs
      pure (y :: ys, g2)

/-- The `{'columns': ..., 'data': ...}` JSON mapping of one category. -/
def mkCatJson (cols : List String) (data : List Json) : Json :=
  .obj [("columns", .arr (cols.map .str)), ("data", .arr data)]

/-- One iteration of the section loop of `transform_old_data_format`
(`investment_catalogue_app.py:408-416`, plus the earlier append of the
migrated members — `mem` — into `family_info.data`, line 406): copy a
category present in the (threaded, possibly already mutated) source as
a bare list, assigning missing ids; skip it otherwise. -/
def transform_step (mem : List Json)
    (acc : Option (List (String × Json) × List (String × Json) × Nat))
    (sec : String × Category) : Option (List (String × Json) × List (String × Json) × Nat) := do
  let (outs, kvs, gg) ← acc
  if sec.1 == "family_info" then
    pure (outs ++ [(sec.1, mkCatJson sec.2.columns mem)], kvs, gg)
  else
    match alGet kvs sec.1 with
    | some (.arr l) => do
        let (l', g') ← migrateList migrateAssetRec gg l
        pure (outs ++ [(sec.1, mkCatJson sec.2.columns l')], alSet kvs sec.1 (.arr l'), g')
    | _ => pure (outs ++ [(sec.1, mkCatJson sec.2.columns [])], kvs, gg)

/-- `transform_old_data_format` (`investment_catalogue_app.py:391-418`).
The member-source key is `members` whenever that key is PRESENT —
whatever its value — else `family_info`; members are migrated only when
the selected value is a list.  Returns the new store, the source
document AFTER the call (the code mutates the legacy records in place
while building the new store), and the advanced id generator; `none`
models an exception escaping the migration. -/
def transform_old_data_format (g : Nat) (old : Json) : Option (Json × Json × Nat) :=
  match old with
  | .obj kvs0 => do
      let key := if alHasKey kvs0 "members" then "members" else "family_info"
      let (mem, kvs1, g1) ←
        (match alGet kvs0 key with
         | some (.arr l) =>
             (migrateList migrateMemberRec g l).map
               (fun mg => (mg.1, alSet kvs0 key (.arr mg.1), mg.2))
         | _ => some ([], kvs0, g))
      let (outs, kvs2, g2) ←
        initialize_data_structures.foldl (transform_step mem) (some ([], kvs1, g1))
      pure (.obj outs, .obj kvs2, g2)
  | _ => none

/-- Which branch the load decision takes: current format, legacy format,
or the `Unrecognized or invalid data format` raise. -/
inductive LoadBranch where
  | current
  | legacy
  | unrecognized
deriving DecidableEq, Repr

/-- The format decision of `load_data_from_file` in the extended variant
(`investment_catalogue_app.py:429-439`), with Python's containment
semantics (`pyContains`, `jGet`, `isinstance(..., list)`); `none` when
one of the containment/subscript tests itself raises `TypeError`. -/
def ext_format_branch (doc : Json) : Option LoadBranch := do
  let hasFam ← pyContains "family_info" doc
  let cur ←
    if hasFam then do
      let fi ← jGet doc "family_info"
      pyContains "columns" fi
    else pure false
  if cur then pure .current
  else do
    let hasMem ← pyContains "members" doc
    let memList ←
      if hasMem then do
        let m ← jGet doc "members"
        pure (jsonIsArr m)
      else pure false
    if memList then pure .legacy
    else do
      let famList ←
        if hasFam then do
          let fi ← jGet doc "family_info"
          pure (jsonIsArr fi)
        else pure false
      if famList then pure .legacy else pure .unrecognized

/-- The format test of `load_data_from_file` in the basic variant
(`app.py:416-417`): `'family_info' in loaded_data and 'columns' in
loaded_data['family_info']` (the code raises when this is false);
`none` when a containment/subscript test raises `TypeError`. -/
def basic_format_ok (doc : Json) : Option Bool := do
  let hasFam ← pyContains "family_info" doc
  if hasFam then do
    let fi ← jGet doc "family_info"
    pyContains "columns" fi
  else pure false

/-- Outcome of a load: whether an exception was caught (and the error
dialog shown), and the final `data_store`. -/
structure LoadOutcome where
  raised : Bool
  store : Json

/-- The forward-fill of missing categories
(`investment_catalogue_app.py:442-444`): append each declared category
absent from the adopted document. -/
def fillMissingSections (kvs : List (String × Json)) : List (String × Json) :=
  initialize_data_structures.foldl (fun acc sc =>
    if alHasKey acc sc.1 then acc else acc ++ [(sc.1, jsonOfCategory sc.2)]) kvs

/-- `load_data_from_file` of the extended variant
(`investment_catalogue_app.py:420-452`), past file IO and up to the view
refresh (presentation layer, not modelled): adopt a current-format
document directly, migrate a legacy one, otherwise raise — the `except`
handler resets the store to the empty default. -/
def load_data_from_file_ext (g : Nat) (doc : Json) : LoadOutcome :=
  match ext_format_branch doc with
  | none => ⟨true, initJson⟩
  | some .current =>
      match doc with
      | .obj kvs => ⟨false, .obj (fillMissingSections kvs)⟩
      | _ => ⟨true, initJson⟩
  | some .legacy =>
      match transform_old_data_format g doc with
      | none => ⟨true, initJson⟩
      | some (.obj kvs, _, _) => ⟨false, .obj (fillMissingSections kvs)⟩
      | some _ => ⟨true, initJson⟩
  | some .unrecognized => ⟨true, initJson⟩

/-- `load_data_from_file` of the basic variant (`app.py:410-426`), past
file IO and up to the view refresh: raise unless the current-format
test passes, else reinitialize and `dict.update` with the document; the
`except` handler resets via `new_file` (its confirmation dialog is
presentation layer, modelled as accepted). -/
def load_data_from_file_basic (doc : Json) : LoadOutcome :=
  match basic_format_ok doc with
  | none => ⟨true, initJson⟩
  | some false => ⟨true, initJson⟩
  | some true =>
      match doc with
      | .obj kvs =>
          ⟨false, .obj (alUpdate
            (initialize_data_structures.map (fun sc => (sc.1, jsonOfCategory sc.2))) kvs)⟩
      | _ => ⟨true, initJson⟩

/-- Display-name resolution as the spec describes it: the referenced
member's current `Name`, `?` when the identifier resolves to no member
(or the member record has no usable name string). -/
def holderDisplayName (store : Store) (hid : String) : String :=
  match get_member_by_id store hid with
  | none => "?"
  | some m =>
      match alGet m "Name" with
      | some (.s n) => n
      | _ => "?"

/-- The holder column a category's export writes:
`'Owners' if 'Owners' in content['columns'] else 'Holders'`
(`app.py:446`). -/
def holderColName (cols : List String) : String :=
  if cols.contains "Owners" then "Owners" else "Holders"

/-- The exported row of a record with a well-formed holders list:
`holders` popped, the comma-joined display names stored under the
declared holder column, `id` popped. -/
def exportedRow (store : Store) (cols : List String) (r : Record) (hs : List String) : Record :=
  alPop (alSet (alPop r "holders") (holderColName cols)
    (Val.s (String.intercalate ", " (hs.map (holderDisplayName store))))) "id"

/-- Modelled from the spec (claim side, for comparison with the code's
test): the current format is "a `family_info` mapping carrying
`columns`". -/
def claimCurrentFormat (doc : Json) : Bool :=
  match jGet doc "family_info" with
  | some (.obj kvs) => alHasKey kvs "columns"
  | _ => false

/-- Modelled from the spec (claim side, for comparison with the code's
test): the legacy format is "a `members` or `family_info` entry that is
a bare sequence". -/
def claimLegacyFormat (doc : Json) : Bool :=
  (match jGet doc "members" with | some (.arr _) => true | _ => false) ||
  (match jGet doc "family_info" with | some (.arr _) => true | _ => false)

/-- A store holding one member `m1` and one bank account listing `m1`
twice among its holders (reachable through the UI: two members sharing a
display name are mapped to one id by the editor's name→id map, so
selecting both listbox rows stores the same id twice). -/
def dupHolderStore : Store :=
  [ ("family_info", ⟨["Name", "Aadhar No.", "PAN no", "Voter id no"],
      [[("Name", .s "Asha"), ("id", .s "m1")]]⟩),
    ("bank_accounts", ⟨["Holders", "Account Type", "BANK NAME", "ACCOUNT NO"],
      [[("Account Type", .s "Savings"), ("holders", .ls ["m1", "m1"]), ("id", .s "a1")]]⟩) ]

/-- What `delete_member_from_button` leaves of `dupHolderStore`: the
member is gone but one `m1` holder entry survives. -/
def dupHolderStoreAfter : Store :=
  [ ("family_info", ⟨["Name", "Aadhar No.", "PAN no", "Voter id no"], []⟩),
    ("bank_accounts", ⟨["Holders", "Account Type", "BANK NAME", "ACCOUNT NO"],
      [[("Account Type", .s "Savings"), ("holders", .ls ["m1"]), ("id", .s "a1")]]⟩) ]

/-- A store whose bank account carries an extra attribute (`Extra`) that
is not among the fields an editor submits. -/
def extraFieldStore : Store :=
  [ ("family_info", ⟨["Name", "Aadhar No.", "PAN no", "Voter id no"], []⟩),
    ("bank_accounts", ⟨["Holders", "Account Type", "BANK NAME", "ACCOUNT NO"],
      [[("Account Type", .s "Old"), ("Extra", .s "keepme"),
        ("holders", .ls []), ("id", .s "a1")]]⟩) ]

/-- The field map an edit of `extraFieldStore`'s record submits. -/
def extraFieldNewData : Record :=
  [("Account Type", .s "New"), ("holders", .ls ["m1"])]

/-- `extraFieldStore` after `save_asset` with `extraFieldNewData`:
`dict.update` keeps the `Extra` attribute and appends nothing new. -/
def extraFieldStoreAfter : Store :=
  [ ("family_info", ⟨["Name", "Aadhar No.", "PAN no", "Voter id no"], []⟩),
    ("bank_accounts", ⟨["Holders", "Account Type", "BANK NAME", "ACCOUNT NO"],
      [[("Account Type", .s "New"), ("Extra", .s "keepme"),
        ("holders", .ls ["m1"]), ("id", .s "a1")]]⟩) ]

/-- A store with one member `m2` named `Bee` and one bank account held
by the deleted `m1` and by `m2`, the record's keys laid out the way the
editor creates them (schema fields, then `holders`, then `id`). -/
def exportStore : Store :=
  [ ("family_info", ⟨["Name", "Aadhar No.", "PAN no", "Voter id no"],
      [[("Name", .s "Bee"), ("Aadhar No.", .s ""), ("PAN no", .s ""),
        ("Voter id no", .s ""), ("id", .s "m2")]]⟩),
    ("bank_accounts", ⟨["Holders", "Account Type", "BANK NAME", "ACCOUNT NO"],
      [[("Account Type", .s "Savings"), ("BANK NAME", .s "SBI"), ("ACCOUNT NO", .s "123"),
        ("holders", .ls ["m1", "m2"]), ("id", .s "a1")]]⟩) ]

/-- The spec's legacy example document `{"members": [{"name": "Asha"}]}`. -/
def ashaDoc : Json := .obj [("members", .arr [.obj [("name", .str "Asha")]])]

/-- The migrated Asha record: fresh id, `name` renamed to `Name`. -/
def ashaMigrated : Json := .obj [("id", .str (genId 0)), ("Name", .str "Asha")]

/-- A document matching neither spec format — its `family_info` entry is
the plain string `"columns"` — that the loaders' Python containment
tests nonetheless accept as current format (`'columns' in 'columns'` is
a substring test). -/
def strColumnsDoc : Json := .obj [("family_info", .str "columns")]

/-- The spec's unrecognized-document example `{"foo": 1}`. -/
def fooDoc : Json := .obj [("foo", .num 1)]

/-- The nine asset categories as empty JSON categories, in declaration
order. -/
def emptyAssetCatsJson : List (String × Json) :=
  (initialize_data_structures.drop 1).map (fun sc => (sc.1, jsonOfCategory sc.2))

/-- The store migration builds from `ashaDoc`. -/
def ashaMigratedStore : Json :=
  .obj (("family_info",
    mkCatJson ["Name", "Aadhar No.", "PAN no", "Voter id no"] [ashaMigrated])
    :: emptyAssetCatsJson)

/-- The source document after migrating `ashaDoc`: its member record has
been mutated in place (id assigned, `name` renamed). -/
def ashaMigratedSource : Json := .obj [("members", .arr [ashaMigrated])]

/-- The nine asset categories of the declared structure, in declaration
order (everything after `family_info`). -/
def assetSections : List (String × Category) := initialize_data_structures.drop 1

/-- What the migration's section loop guarantees for one asset section,
relative to the source pairs `kvs` seen by the loop and the post-call
source pairs `kvs2`: the entry carries the section name; a bare-list
source section is copied through the id-assigning record migration (at
some intermediate generator states) and written back into the source,
any other section comes out empty with the source untouched. -/
def SectionMigrated (kvs kvs2 : List (String × Json)) (sec : String × Category)
    (e : String × Json) : Prop :=
  e.1 = sec.1 ∧
  ((∃ l l2 gA gB, alGet kvs sec.1 = some (.arr l) ∧
      migrateList migrateAssetRec gA l = some (l2, gB) ∧
      e.2 = mkCatJson sec.2.columns l2 ∧ alGet kvs2 sec.1 = some (.arr l2)) ∨
   ((∀ l, alGet kvs sec.1 ≠ some (.arr l)) ∧ e.2 = mkCatJson sec.2.columns [] ∧
      alGet kvs2 sec.1 = alGet kvs sec.1))

/-- A legacy document whose `family_info` entry is a bare sequence of
member records while a non-sequence `members` entry is also present:
the loaders classify it as legacy, but the migrator reads members only
from the present `members` key, so the `family_info` records are
dropped. -/
def shadowDoc : Json :=
  .obj [("members", .num 5), ("family_info", .arr [.obj [("name", .str "A")]])]

/-- A populated store for the round-trip witness: the default categories
with one member and one bank account. -/
def roundtripStore : Store :=
  modifyCat
    (modifyCat initialize_data_structures "family_info" (fun cat =>
      { cat with data := [[("Name", Val.s "Asha"), ("Aadhar No.", Val.s "1"),
          ("PAN no", Val.s "2"), ("Voter id no", Val.s "3"), ("id", Val.s "m1")]] }))
    "bank_accounts" (fun cat =>
      { cat with data := [[("Account Type", Val.s "Savings"), ("BANK NAME", Val.s "SBI"),
          ("ACCOUNT NO", Val.s "123"), ("holders", Val.ls ["m1"]), ("id", Val.s "a1")]] })

end Wealth

namespace Wealth

theorem alGet_nil {α : Type} (k : String) : alGet ([] : List (String × α)) k = none := rfl

theorem alGet_cons {α : Type} (x : String × α) (l : List (String × α)) (k : String) :
    alGet (x :: l) k = if x.1 == k then some x.2 else alGet l k := by
  simp only [alGet, List.find?]
  cases h : x.1 == k <;> simp [h]

theorem alGet_alSet_self {α : Type} (l : List (String × α)) (k : String) (v : α) :
    alGet (alSet l k v) k = some v := by
  induction l with
  | nil => simp [alSet, alGet_cons]
  | cons x xs ih =>
      simp only [alSet]
      cases h : x.1 == k
      · simp only [Bool.false_eq_true, if_false]
        rw [alGet_cons, if_neg (by simp [h]), ih]
      · simp only [if_true]
        rw [alGet_cons, if_pos (by simp)]

theorem alGet_alSet_ne {α : Type} (l : List (String × α)) (k : String) (v : α)
    (k' : String) (h : k' ≠ k) : alGet (alSet l k v) k' = alGet l k' := by
  have hkk : (k == k') = false := by
    cases hb : k == k'
    · rfl
    · exact absurd (eq_of_beq hb).symm h
  induction l with
  | nil =>
      simp only [alSet]
      rw [alGet_cons, if_neg (by simp [hkk])]
  | cons x xs ih =>
      simp only [alSet]
      cases hx : x.1 == k
      · simp only [Bool.false_eq_true, if_false]
        rw [alGet_cons, alGet_cons, ih]
      · simp only [if_true]
        rw [alGet_cons, alGet_cons, if_neg (by simp [hkk])]
        have : (x.1 == k') = false := by
          rw [eq_of_beq hx]; exact hkk
        rw [if_neg (by simp [this])]

theorem alGet_alPop_ne {α : Type} (l : List (String × α)) (k k' : String) (h : k' ≠ k) :
    alGet (alPop l k) k' = alGet l k' := by
  induction l with
  | nil => rfl
  | cons x xs ih =>
      simp only [alPop, List.eraseP_cons]
      cases hx : x.1 == k
      · simp only [cond_false]
        rw [alGet_cons, alGet_cons]
        cases hk : x.1 == k'
        · simp only [Bool.false_eq_true, if_false]
          exact ih
        · simp only [if_true]
      · simp only [cond_true]
        rw [alGet_cons]
        have : (x.1 == k') = false := by
          cases hb : x.1 == k'
          · rfl
          · exact absurd ((eq_of_beq hb).symm.trans (eq_of_beq hx)) h
        rw [if_neg (by simp [this])]

theorem alHasKey_cons {α : Type} (x : String × α) (l : List (String × α)) (k : String) :
    alHasKey (x :: l) k = ((x.1 == k) || alHasKey l k) := by
  simp [alHasKey]

theorem alHasKey_alPop_self {α : Type} (l : List (String × α)) (k : String)
    (h : (l.map Prod.fst).Nodup) : alHasKey (alPop l k) k = false := by
  induction l with
  | nil => rfl
  | cons x xs ih =>
      simp only [List.map_cons, List.nodup_cons] at h
      simp only [alPop, List.eraseP_cons]
      cases hx : x.1 == k
      · simp only [cond_false, alHasKey_cons, hx, Bool.false_or]
        exact ih h.2
      · simp only [cond_true]
        simp only [alHasKey, List.any_eq_false]
        intro kv hkv
        cases hc : kv.1 == k
        · simp
        · exfalso
          apply h.1
          rw [show x.1 = kv.1 from (eq_of_beq hx).trans (eq_of_beq hc).symm]
          exact List.mem_map_of_mem Prod.fst hkv

theorem alHasKey_alPop_ne {α : Type} (l : List (String × α)) (k k' : String) (h : k' ≠ k) :
    alHasKey (alPop l k) k' = alHasKey l k' := by
  induction l with
  | nil => rfl
  | cons x xs ih =>
      simp only [alPop, List.eraseP_cons]
      cases hx : x.1 == k
      · simp only [cond_false, alHasKey_cons]
        rw [show alHasKey (List.eraseP (fun kv => kv.1 == k) xs) k'
              = alHasKey (alPop xs k) k' from rfl, ih]
      · simp only [cond_true, alHasKey_cons]
        have : (x.1 == k') = false := by
          cases hb : x.1 == k'
          · rfl
          · exact absurd ((eq_of_beq hb).symm.trans (eq_of_beq hx)) h
        rw [this, Bool.false_or]

theorem alGet_alUpdate_not_mem {α : Type} (r nd : List (String × α)) (k : String)
    (h : alHasKey nd k = false) : alGet (alUpdate r nd) k = alGet r k := by
  induction nd generalizing r with
  | nil => rfl
  | cons x xs ih =>
      rw [alHasKey_cons] at h
      have hx : (x.1 == k) = false := by
        cases hb : x.1 == k
        · rfl
        · rw [hb] at h; simp at h
      have hxs : alHasKey xs k = false := by
        cases hb : alHasKey xs k
        · rfl
        · rw [hb] at h; simp at h
      simp only [alUpdate, List.foldl_cons]
      rw [show List.foldl (fun acc kv => alSet acc kv.1 kv.2) (alSet r x.1 x.2) xs
            = alUpdate (alSet r x.1 x.2) xs from rfl]
      rw [ih _ hxs]
      exact alGet_alSet_ne _ _ _ _ (fun hc => by rw [hc] at hx; simp at hx)

theorem alGet_alUpdate_mem {α : Type} (r nd : List (String × α)) (k : String)
    (hnd : (nd.map Prod.fst).Nodup) (h : alHasKey nd k = true) :
    alGet (alUpdate r nd) k = alGet nd k := by
  induction nd generalizing r with
  | nil => simp [alHasKey] at h
  | cons x xs ih =>
      simp only [List.map_cons, List.nodup_cons] at hnd
      simp only [alUpdate, List.foldl_cons]
      rw [show List.foldl (fun acc kv => alSet acc kv.1 kv.2) (alSet r x.1 x.2) xs
            = alUpdate (alSet r x.1 x.2) xs from rfl]
      cases hx : x.1 == k
      · have hxsk : alHasKey xs k = true := by
          rw [alHasKey_cons, hx, Bool.false_or] at h
          exact h
        rw [ih _ hnd.2 hxsk, alGet_cons, if_neg (by simp [hx])]
      · have hk : x.1 = k := eq_of_beq hx
        subst hk
        have hxs : alHasKey xs x.1 = false := by
          cases hb : alHasKey xs x.1
          · rfl
          · exfalso
            simp only [alHasKey, List.any_eq_true] at hb
            obtain ⟨kv, hkv, hc⟩ := hb
            exact hnd.1 ((eq_of_beq hc) ▸ List.mem_map_of_mem Prod.fst hkv)
        rw [alGet_alUpdate_not_mem _ _ _ hxs, alGet_alSet_self, alGet_cons,
          if_pos (by simp)]

theorem updateFirst_eq_self (p : Record → Bool) (f : Record → Record) (l : List Record)
    (h : ∀ r ∈ l, p r = false) : updateFirst p f l = l := by
  induction l with
  | nil => rfl
  | cons x xs ih =>
      have hx := h x (List.mem_cons_self x xs)
      simp only [updateFirst, hx, Bool.false_eq_true, if_false]
      rw [ih (fun r hr => h r (List.mem_cons_of_mem x hr))]

theorem updateFirst_append (p : Record → Bool) (f : Record → Record)
    (pre : List Record) (r : Record) (post : List Record)
    (hpre : ∀ x ∈ pre, p x = false) (hr : p r = true) :
    updateFirst p f (pre ++ r :: post) = pre ++ f r :: post := by
  induction pre with
  | nil => simp [updateFirst, hr]
  | cons x xs ih =>
      have hx := hpre x (List.mem_cons_self x xs)
      simp only [List.cons_append, updateFirst, hx, Bool.false_eq_true, if_false,
        List.append_eq]
      rw [ih (fun y hy => hpre y (List.mem_cons_of_mem x hy))]

theorem list_map_eq_self {α : Type} (f : α → α) (l : List α) (h : ∀ x ∈ l, f x = x) :
    l.map f = l := by
  induction l with
  | nil => rfl
  | cons x xs ih =>
      simp only [List.map_cons, h x (List.mem_cons_self x xs)]
      rw [ih (fun y hy => h y (List.mem_cons_of_mem x hy))]

theorem lowerStr_eq_empty_iff (s : String) : lowerStr s = "" ↔ s = "" := by
  cases s with
  | mk l =>
      constructor
      · intro h
        have hd : l.map Char.toLower = ("" : String).data := congrArg String.data h
        have hl : l = [] := List.map_eq_nil_iff.mp hd
        rw [hl]
      · intro h
        rw [h]
        decide

theorem beq_false_of_ne {α : Type} [BEq α] [LawfulBEq α] {a b : α} (h : a ≠ b) :
    (a == b) = false := by
  cases hb : a == b
  · rfl
  · exact absurd (eq_of_beq hb) h

theorem beq_true_of_eq {α : Type} [BEq α] [LawfulBEq α] {a b : α} (h : a = b) :
    (a == b) = true := by
  subst h
  simp

theorem list_map_congr {α β : Type} (f g : α → β) (l : List α) (h : ∀ x ∈ l, f x = g x) :
    l.map f = l.map g := by
  induction l with
  | nil => rfl
  | cons x xs ih =>
      simp only [List.map_cons, h x (List.mem_cons_self x xs)]
      rw [ih (fun y hy => h y (List.mem_cons_of_mem x hy))]

/-- C7: `filter(category, "")` returns the full category record list in
store order; for every non-empty search term the filter returns exactly
the records for which the string representation of some stored field
value (declared or not, including `id` and `holders`) contains the term
case-insensitively, preserving store order — a sublist of the full
list. -/
theorem filter_query_spec (cat : Category) (term : String) :
    filter_treeview cat "" = cat.data ∧
    (term ≠ "" →
      filter_treeview cat term =
        cat.data.filter (fun rec =>
          rec.any (fun kv => isSubstr (lowerStr term) (lowerStr (pyStr kv.2)))) ∧
      List.Sublist (filter_treeview cat term) cat.data) := by
  have hz : lowerStr "" = "" := by decide
  refine ⟨?_, fun h => ?_⟩
  · simp [filter_treeview, hz]
  · have hl : ¬ lowerStr term = "" := fun hc => h ((lowerStr_eq_empty_iff term).mp hc)
    refine ⟨?_, ?_⟩
    · simp only [filter_treeview, if_neg hl]
    · simp only [filter_treeview, if_neg hl]
      exact List.filter_sublist _

/-- Witness for C7 at a concrete category and search term. -/
theorem filter_query_spec_witness :
    ("AS" : String) ≠ "" ∧
    filter_treeview
      ⟨["Name"], [[("Name", Val.s "Asha"), ("id", Val.s "m1")],
                  [("Name", Val.s "Bee"), ("id", Val.s "m2")]]⟩ "AS" =
      List.filter
        (fun rec => rec.any (fun kv => isSubstr (lowerStr "AS") (lowerStr (pyStr kv.2))))
        [[("Name", Val.s "Asha"), ("id", Val.s "m1")],
         [("Name", Val.s "Bee"), ("id", Val.s "m2")]] :=
  ⟨by decide,
    ((filter_query_spec
      ⟨["Name"], [[("Name", Val.s "Asha"), ("id", Val.s "m1")],
                  [("Name", Val.s "Bee"), ("id", Val.s "m2")]]⟩ "AS").2 (by decide)).1⟩

/-- C2 counterexample: with no member (or asset) carrying id `zz`,
`save_member` and `save_asset` return the store unchanged through their
ordinary return path — the code has no failure channel at all, so no
`NotFound` is surfaced; the call silently does nothing. -/
theorem update_missing_notfound_cex :
    get_member_by_id initialize_data_structures "zz" = none ∧
    save_member initialize_data_structures "uuid-9" [("Name", Val.s "Zed")] (some "zz")
      = initialize_data_structures ∧
    save_asset initialize_data_structures "uuid-9" "bank_accounts"
      [("Account Type", Val.s "X")] (some "zz") = initialize_data_structures := by
  decide

/-- C2 amended: when no member with the given identifier exists,
`updateMember` leaves the store unchanged and raises nothing, and
likewise `updateAsset` when no record with the identifier exists in the
category; the miss is silent, not surfaced. -/
theorem update_missing_silently_ignored (store : Store) (gen : String) (nd : Record)
    (mid sec aid : String)
    (hm : ∀ p ∈ store, p.1 = "family_info" → ∀ m ∈ p.2.data, alGet m "id" ≠ some (Val.s mid))
    (ha : ∀ p ∈ store, p.1 = sec → ∀ a ∈ p.2.data, alGet a "id" ≠ some (Val.s aid)) :
    save_member store gen nd (some mid) = store ∧
    save_asset store gen sec nd (some aid) = store := by
  constructor
  · simp only [save_member]
    unfold modifyCat
    apply list_map_eq_self
    intro sc hsc
    cases hq : sc.1 == "family_info"
    · simp [hq]
    · have h1 : sc.1 = "family_info" := eq_of_beq hq
      simp only [hq, if_true]
      rw [updateFirst_eq_self _ _ sc.2.data
        (fun r hr => beq_false_of_ne (hm sc hsc h1 r hr))]
  · simp only [save_asset]
    unfold modifyCat
    apply list_map_eq_self
    intro sc hsc
    cases hq : sc.1 == sec
    · simp [hq]
    · have h1 : sc.1 = sec := eq_of_beq hq
      simp only [hq, if_true]
      rw [updateFirst_eq_self _ _ sc.2.data
        (fun r hr => beq_false_of_ne (ha sc hsc h1 r hr))]

/-- Witness for the amended C2 at the empty default store. -/
theorem update_missing_silently_ignored_witness :
    save_member initialize_data_structures "u" [("Name", Val.s "Z")] (some "zz")
      = initialize_data_structures ∧
    save_asset initialize_data_structures "u" "bank_accounts"
      [("Account Type", Val.s "X")] (some "zz") = initialize_data_structures :=
  update_missing_silently_ignored initialize_data_structures "u" [("Name", Val.s "Z")]
    "zz" "bank_accounts" "zz" (by decide) (by decide)

/-- C3 counterexample: editing the bank record of `extraFieldStore` with
fields that do not mention its `Extra` attribute keeps `Extra` — the
update is `dict.update`, a merge, not a replacement of the field map. -/
theorem update_asset_merge_cex :
    save_asset extraFieldStore "uuid-9" "bank_accounts" extraFieldNewData (some "a1")
      = extraFieldStoreAfter ∧
    alGet [("Account Type", Val.s "New"), ("Extra", Val.s "keepme"),
      ("holders", Val.ls ["m1"]), ("id", Val.s "a1")] "Extra" = some (Val.s "keepme") := by
  decide

/-- C3 amended: `updateAsset` merges the submitted field map and holders
into the stored record — submitted keys overwrite, all other attributes
of the old record survive — and the identifier is preserved. -/
theorem update_asset_merges (store : Store) (gen sec aid : String) (nd : Record)
    (cols : List String) (pre post : List Record) (r : Record)
    (huniq : ∀ p ∈ store, p.1 = sec → p.2 = Category.mk cols (pre ++ r :: post))
    (hpre : ∀ x ∈ pre, alGet x "id" ≠ some (Val.s aid))
    (hr : alGet r "id" = some (Val.s aid))
    (hnd : alHasKey nd "id" = false)
    (hndk : (nd.map Prod.fst).Nodup) :
    save_asset store gen sec nd (some aid)
      = modifyCat store sec (fun _ => Category.mk cols (pre ++ alUpdate r nd :: post)) ∧
    alGet (alUpdate r nd) "id" = some (Val.s aid) ∧
    (∀ k, alHasKey nd k = true → alGet (alUpdate r nd) k = alGet nd k) ∧
    (∀ k, alHasKey nd k = false → alGet (alUpdate r nd) k = alGet r k) := by
  refine ⟨?_, ?_, ?_, ?_⟩
  · simp only [save_asset]
    unfold modifyCat
    apply list_map_congr
    intro sc hsc
    cases hq : sc.1 == sec
    · simp [hq]
    · have h1 : sc.1 = sec := eq_of_beq hq
      have h2 := huniq sc hsc h1
      simp only [hq, if_true, h2]
      rw [updateFirst_append _ _ pre r post
        (fun x hx => beq_false_of_ne (hpre x hx)) (beq_true_of_eq hr)]
  · rw [alGet_alUpdate_not_mem _ _ _ hnd]
    exact hr
  · intro k hk
    exact alGet_alUpdate_mem _ _ _ hndk hk
  · intro k hk
    exact alGet_alUpdate_not_mem _ _ _ hk

/-- Witness for the amended C3 at `extraFieldStore`. -/
theorem update_asset_merges_witness :
    save_asset extraFieldStore "uuid-9" "bank_accounts" extraFieldNewData (some "a1")
      = modifyCat extraFieldStore "bank_accounts"
          (fun _ => Category.mk ["Holders", "Account Type", "BANK NAME", "ACCOUNT NO"]
            ([] ++ alUpdate [("Account Type", Val.s "Old"), ("Extra", Val.s "keepme"),
              ("holders", Val.ls []), ("id", Val.s "a1")] extraFieldNewData :: [])) ∧
    alGet (alUpdate [("Account Type", Val.s "Old"), ("Extra", Val.s "keepme"),
      ("holders", Val.ls []), ("id", Val.s "a1")] extraFieldNewData) "id"
      = some (Val.s "a1") ∧
    (∀ k, alHasKey extraFieldNewData k = true →
      alGet (alUpdate [("Account Type", Val.s "Old"), ("Extra", Val.s "keepme"),
        ("holders", Val.ls []), ("id", Val.s "a1")] extraFieldNewData) k
        = alGet extraFieldNewData k) ∧
    (∀ k, alHasKey extraFieldNewData k = false →
      alGet (alUpdate [("Account Type", Val.s "Old"), ("Extra", Val.s "keepme"),
        ("holders", Val.ls []), ("id", Val.s "a1")] extraFieldNewData) k
        = alGet [("Account Type", Val.s "Old"), ("Extra", Val.s "keepme"),
            ("holders", Val.ls []), ("id", Val.s "a1")] k) :=
  update_asset_merges extraFieldStore "uuid-9" "bank_accounts" "a1" extraFieldNewData
    ["Holders", "Account Type", "BANK NAME", "ACCOUNT NO"] [] []
    [("Account Type", Val.s "Old"), ("Extra", Val.s "keepme"),
      ("holders", Val.ls []), ("id", Val.s "a1")]
    (by decide) (by decide) (by decide) (by decide) (by decide)

/-- C1: evaluation of `delete_member_from_button` at a store whose bank
account lists the member `m1` twice among its holders.  `list.remove`
deletes only the first occurrence, so the asset still references the
deleted member and `assetsHeldBy("m1")` is non-empty afterwards. -/
theorem delete_member_dup_holder_eval :
    get_member_by_id dupHolderStore "m1" = some [("Name", Val.s "Asha"), ("id", Val.s "m1")] ∧
    delete_member_from_button dupHolderStore "m1" = some dupHolderStoreAfter ∧
    assetsHeldBy dupHolderStoreAfter "m1" =
      [("bank_accounts",
        [("Account Type", Val.s "Savings"), ("holders", Val.ls ["m1"]), ("id", Val.s "a1")])] := by
  decide

theorem bor_eq_false {a b : Bool} (h : (a || b) = false) : a = false ∧ b = false := by
  cases a <;> cases b <;> simp_all

theorem alHasKey_of_alGet {α : Type} (l : List (String × α)) (k : String) (v : α)
    (h : alGet l k = some v) : alHasKey l k = true := by
  induction l with
  | nil => simp [alGet] at h
  | cons x xs ih =>
      rw [alGet_cons] at h
      rw [alHasKey_cons]
      cases hx : x.1 == k
      · rw [hx] at h
        simp only [Bool.false_eq_true, if_false] at h
        rw [Bool.false_or]
        exact ih h
      · rw [Bool.true_or]

theorem alHasKey_false_iff {α : Type} (l : List (String × α)) (k : String) :
    alHasKey l k = false ↔ k ∉ l.map Prod.fst := by
  simp only [alHasKey, List.any_eq_false, List.mem_map]
  constructor
  · rintro h ⟨kv, hkv, hk⟩
    exact absurd (beq_true_of_eq hk) (by simp [h kv hkv])
  · intro h kv hkv
    cases hb : kv.1 == k
    · simp
    · exact absurd ⟨kv, hkv, eq_of_beq hb⟩ h

theorem list_mapM_eq_map {α β : Type} (f : α → Option β) (g : α → β) (l : List α)
    (h : ∀ x ∈ l, f x = some (g x)) : l.mapM f = some (l.map g) := by
  induction l with
  | nil => rfl
  | cons x xs ih =>
      rw [List.mapM_cons, h x (List.mem_cons_self x xs),
        ih (fun y hy => h y (List.mem_cons_of_mem x hy))]
      rfl

theorem keys_alPop {α : Type} (l : List (String × α)) (k : String) :
    (alPop l k).map Prod.fst = (l.map Prod.fst).eraseP (fun s => s == k) := by
  induction l with
  | nil => rfl
  | cons x xs ih =>
      simp only [alPop, List.map_cons, List.eraseP_cons]
      cases hx : x.1 == k
      · simp only [cond_false, List.map_cons]
        rw [show (List.eraseP (fun kv => kv.1 == k) xs).map Prod.fst
              = (alPop xs k).map Prod.fst from rfl, ih]
      · simp only [cond_true]

theorem keys_alSet_not_mem {α : Type} (l : List (String × α)) (k : String) (v : α)
    (h : alHasKey l k = false) : (alSet l k v).map Prod.fst = l.map Prod.fst ++ [k] := by
  induction l with
  | nil => rfl
  | cons x xs ih =>
      rw [alHasKey_cons] at h
      obtain ⟨hx, hxs⟩ := bor_eq_false h
      simp only [alSet, hx, Bool.false_eq_true, if_false, List.map_cons, ih hxs,
        List.cons_append]

theorem eraseP_append_singleton {α : Type} (p : α → Bool) (l : List α) (x : α)
    (h : p x = false) : (l ++ [x]).eraseP p = l.eraseP p ++ [x] := by
  induction l with
  | nil => simp [List.eraseP_cons, h]
  | cons a as ih =>
      simp only [List.cons_append, List.eraseP_cons]
      cases ha : p a
      · simp only [cond_false, ih, List.cons_append]
      · simp only [cond_true]

/-- What one export entry guarantees relative to its source category. -/
def ExportEntryOk (store : Store) (sc : String × Category)
    (e : String × List String × List Record) : Prop :=
  e.1 = sc.1 ∧
  sc.2.data.mapM (export_record store sc.2.columns) = some e.2.2 ∧
  ∃ f rest, e.2.2 = f :: rest ∧ e.2.1 = f.map Prod.fst

theorem export_sections_forall (store : Store) (l : List (String × Category)) :
    ∀ (es : List (Option (String × List String × List Record))),
      l.mapM (export_section store) = some es →
      List.Forall₂ (ExportEntryOk store)
        (l.filter (fun sc => !sc.2.data.isEmpty)) es.reduceOption := by
  induction l with
  | nil =>
      intro es h
      rw [List.mapM_nil] at h
      cases h
      exact List.Forall₂.nil
  | cons sc l' ih =>
      intro es h
      rw [List.mapM_cons] at h
      cases he : export_section store sc with
      | none => rw [he] at h; simp at h
      | some e =>
          rw [he] at h
          cases hes : l'.mapM (export_section store) with
          | none => rw [hes] at h; simp at h
          | some es' =>
              rw [hes] at h
              simp only [Option.pure_def, Option.bind_eq_bind, Option.some_bind,
                Option.some.injEq] at h
              subst h
              cases hdata : sc.2.data with
              | nil =>
                  have hempty : sc.2.data.isEmpty = true := by rw [hdata]; rfl
                  rw [export_section, if_pos hempty] at he
                  cases he
                  simp only [List.filter_cons, hempty, Bool.not_true,
                    List.reduceOption_cons_of_none]
                  exact ih es' hes
              | cons d ds =>
                  have hempty : sc.2.data.isEmpty = false := by rw [hdata]; rfl
                  rw [export_section, if_neg (by simp [hempty])] at he
                  rw [hdata] at he
                  cases hd : export_record store sc.2.columns d with
                  | none => rw [List.mapM_cons, hd] at he; simp at he
                  | some y =>
                      cases hds : ds.mapM (export_record store sc.2.columns) with
                      | none => rw [List.mapM_cons, hd, hds] at he; simp at he
                      | some ys =>
                          rw [List.mapM_cons, hd, hds] at he
                          simp only [Option.pure_def, Option.bind_eq_bind,
                            Option.some_bind, Option.some.injEq] at he
                          rw [← he]
                          simp only [List.filter_cons, hempty, Bool.not_false,
                            List.reduceOption_cons_of_some]
                          refine List.Forall₂.cons ?_ (ih es' hes)
                          refine ⟨rfl, ?_, y, ys, rfl, rfl⟩
                          rw [hdata, List.mapM_cons, hd, hds]
                          rfl

/-- C9 (amended): tabular export emits one file per category with
records, named after the category, in store order; the transformed row
of a record replaces `holders` by the comma-joined display names of the
referenced members (`?` for identifiers resolving to no member), drops
the synthetic `id`, stores the joined names under the declared holder
column and keeps every other attribute; the header is the key list of
the FIRST transformed record, i.e. the record's remaining keys in
stored order with the holder column appended LAST — for schema-shaped
records this is the declared schema with the holder column moved from
its declared position to the end, not the schema order itself. -/
theorem export_spec :
    (∀ (store : Store) (out : List (String × List String × List Record)),
      export_to_csv store = some out →
      List.Forall₂ (ExportEntryOk store)
        (store.filter (fun sc => !sc.2.data.isEmpty)) out) ∧
    (∀ (store : Store) (cols : List String) (r : Record) (hs : List String),
      alGet r "holders" = some (Val.ls hs) →
      (∀ hid ∈ hs, export_holder_name store hid = some (holderDisplayName store hid)) →
      alHasKey r (holderColName cols) = false →
      (r.map Prod.fst).Nodup →
      export_record store cols r = some (exportedRow store cols r hs) ∧
      alGet (exportedRow store cols r hs) (holderColName cols)
        = some (Val.s (String.intercalate ", " (hs.map (holderDisplayName store)))) ∧
      alHasKey (exportedRow store cols r hs) "id" = false ∧
      (∀ k, k ≠ "holders" → k ≠ "id" → k ≠ holderColName cols →
        alGet (exportedRow store cols r hs) k = alGet r k) ∧
      (exportedRow store cols r hs).map Prod.fst
        = ((alPop (alPop r "holders") "id").map Prod.fst) ++ [holderColName cols]) := by
  constructor
  · intro store out h
    rw [export_to_csv] at h
    cases hm : store.mapM (export_section store) with
    | none => rw [hm] at h; simp at h
    | some es =>
        rw [hm] at h
        simp only [Option.pure_def, Option.bind_eq_bind, Option.some_bind,
          Option.some.injEq] at h
        rw [← h]
        exact export_sections_forall store store es hm
  · intro store cols r hs hh hnm hhc hk
    have hcid : holderColName cols ≠ "id" := by
      unfold holderColName
      split <;> decide
    have hchold : holderColName cols ≠ "holders" := by
      unfold holderColName
      split <;> decide
    have hr1 : alHasKey (alPop r "holders") (holderColName cols) = false := by
      rw [alHasKey_alPop_ne _ _ _ hchold]
      exact hhc
    have hkeys2 : (alSet (alPop r "holders") (holderColName cols)
        (Val.s (String.intercalate ", " (hs.map (holderDisplayName store))))).map Prod.fst
        = (alPop r "holders").map Prod.fst ++ [holderColName cols] :=
      keys_alSet_not_mem _ _ _ hr1
    refine ⟨?_, ?_, ?_, ?_, ?_⟩
    · have h1 : alHasKey r "holders" = true := alHasKey_of_alGet _ _ _ hh
      have h2 : holderIdList ((alGet r "holders").getD (Val.ls [])) = hs := by
        rw [hh]
        rfl
      have h3 : hs.mapM (export_holder_name store) = some (hs.map (holderDisplayName store)) :=
        list_mapM_eq_map _ _ hs hnm
      simp only [export_record, h1, if_true, h2, h3, Option.pure_def, Option.bind_eq_bind,
        Option.some_bind, Option.some.injEq]
      rw [exportedRow, holderColName]
    · rw [exportedRow, alGet_alPop_ne _ _ _ hcid, alGet_alSet_self]
    · have hk1 : ((alPop r "holders").map Prod.fst).Nodup :=
        hk.sublist (List.Sublist.map Prod.fst (List.eraseP_sublist _))
      have hk2 : ((alSet (alPop r "holders") (holderColName cols)
          (Val.s (String.intercalate ", " (hs.map (holderDisplayName store))))).map
            Prod.fst).Nodup := by
        rw [hkeys2, List.nodup_append]
        refine ⟨hk1, List.nodup_singleton _, ?_⟩
        intro a ha hb
        rw [List.mem_singleton] at hb
        exact (alHasKey_false_iff _ _).mp hr1 (hb ▸ ha)
      exact alHasKey_alPop_self _ _ hk2
    · intro k hk1 hk2 hk3
      rw [exportedRow, alGet_alPop_ne _ _ _ hk2, alGet_alSet_ne _ _ _ _ hk3,
        alGet_alPop_ne _ _ _ hk1]
    · rw [exportedRow, keys_alPop, hkeys2,
        eraseP_append_singleton (fun s => s == "id") ((alPop r "holders").map Prod.fst)
          (holderColName cols) (beq_false_of_ne hcid), ← keys_alPop]

/-- C9 counterexample: exporting `exportStore` writes the bank file's
header as the record's keys with the holder column appended LAST —
`["Account Type", "BANK NAME", "ACCOUNT NO", "Holders"]` — not the
declared schema `["Holders", "Account Type", "BANK NAME", "ACCOUNT NO"]`;
the row itself shows the `"?, Bee"` resolution for a deleted `m1`. -/
theorem export_header_cex :
    export_to_csv exportStore = some
      [ ("family_info", ["Name", "Aadhar No.", "PAN no", "Voter id no"],
          [[("Name", Val.s "Bee"), ("Aadhar No.", Val.s ""), ("PAN no", Val.s ""),
            ("Voter id no", Val.s "")]]),
        ("bank_accounts", ["Account Type", "BANK NAME", "ACCOUNT NO", "Holders"],
          [[("Account Type", Val.s "Savings"), ("BANK NAME", Val.s "SBI"),
            ("ACCOUNT NO", Val.s "123"), ("Holders", Val.s "?, Bee")]]) ] ∧
    (["Account Type", "BANK NAME", "ACCOUNT NO", "Holders"] : List String)
      ≠ ["Holders", "Account Type", "BANK NAME", "ACCOUNT NO"] :=
  ⟨rfl, by decide⟩

/-- Witness for the amended C9 at `exportStore` and its bank record. -/
theorem export_spec_witness :
    List.Forall₂ (ExportEntryOk exportStore)
      (exportStore.filter (fun sc => !sc.2.data.isEmpty))
      [ ("family_info", ["Name", "Aadhar No.", "PAN no", "Voter id no"],
          [[("Name", Val.s "Bee"), ("Aadhar No.", Val.s ""), ("PAN no", Val.s ""),
            ("Voter id no", Val.s "")]]),
        ("bank_accounts", ["Account Type", "BANK NAME", "ACCOUNT NO", "Holders"],
          [[("Account Type", Val.s "Savings"), ("BANK NAME", Val.s "SBI"),
            ("ACCOUNT NO", Val.s "123"), ("Holders", Val.s "?, Bee")]]) ] ∧
    (export_record exportStore ["Holders", "Account Type", "BANK NAME", "ACCOUNT NO"]
        [("Account Type", Val.s "Savings"), ("BANK NAME", Val.s "SBI"),
         ("ACCOUNT NO", Val.s "123"), ("holders", Val.ls ["m1", "m2"]), ("id", Val.s "a1")]
      = some (exportedRow exportStore ["Holders", "Account Type", "BANK NAME", "ACCOUNT NO"]
          [("Account Type", Val.s "Savings"), ("BANK NAME", Val.s "SBI"),
           ("ACCOUNT NO", Val.s "123"), ("holders", Val.ls ["m1", "m2"]), ("id", Val.s "a1")]
          ["m1", "m2"]) ∧
      alGet (exportedRow exportStore ["Holders", "Account Type", "BANK NAME", "ACCOUNT NO"]
          [("Account Type", Val.s "Savings"), ("BANK NAME", Val.s "SBI"),
           ("ACCOUNT NO", Val.s "123"), ("holders", Val.ls ["m1", "m2"]), ("id", Val.s "a1")]
          ["m1", "m2"])
        (holderColName ["Holders", "Account Type", "BANK NAME", "ACCOUNT NO"])
        = some (Val.s (String.intercalate ", "
            (["m1", "m2"].map (holderDisplayName exportStore)))) ∧
      alHasKey (exportedRow exportStore ["Holders", "Account Type", "BANK NAME", "ACCOUNT NO"]
          [("Account Type", Val.s "Savings"), ("BANK NAME", Val.s "SBI"),
           ("ACCOUNT NO", Val.s "123"), ("holders", Val.ls ["m1", "m2"]), ("id", Val.s "a1")]
          ["m1", "m2"]) "id" = false ∧
      (∀ k, k ≠ "holders" → k ≠ "id" →
        k ≠ holderColName ["Holders", "Account Type", "BANK NAME", "ACCOUNT NO"] →
        alGet (exportedRow exportStore ["Holders", "Account Type", "BANK NAME", "ACCOUNT NO"]
            [("Account Type", Val.s "Savings"), ("BANK NAME", Val.s "SBI"),
             ("ACCOUNT NO", Val.s "123"), ("holders", Val.ls ["m1", "m2"]), ("id", Val.s "a1")]
            ["m1", "m2"]) k
          = alGet [("Account Type", Val.s "Savings"), ("BANK NAME", Val.s "SBI"),
              ("ACCOUNT NO", Val.s "123"), ("holders", Val.ls ["m1", "m2"]),
              ("id", Val.s "a1")] k) ∧
      (exportedRow exportStore ["Holders", "Account Type", "BANK NAME", "ACCOUNT NO"]
          [("Account Type", Val.s "Savings"), ("BANK NAME", Val.s "SBI"),
           ("ACCOUNT NO", Val.s "123"), ("holders", Val.ls ["m1", "m2"]), ("id", Val.s "a1")]
          ["m1", "m2"]).map Prod.fst
        = ((alPop (alPop [("Account Type", Val.s "Savings"), ("BANK NAME", Val.s "SBI"),
            ("ACCOUNT NO", Val.s "123"), ("holders", Val.ls ["m1", "m2"]),
            ("id", Val.s "a1")] "holders") "id").map Prod.fst)
          ++ [holderColName ["Holders", "Account Type", "BANK NAME", "ACCOUNT NO"]]) :=
  ⟨export_spec.1 exportStore _ rfl,
   export_spec.2 exportStore ["Holders", "Account Type", "BANK NAME", "ACCOUNT NO"]
     [("Account Type", Val.s "Savings"), ("BANK NAME", Val.s "SBI"),
      ("ACCOUNT NO", Val.s "123"), ("holders", Val.ls ["m1", "m2"]), ("id", Val.s "a1")]
     ["m1", "m2"] (by decide) (by decide) (by decide) (by decide)⟩

/-- C6 counterexample: `{"family_info": "columns"}` matches neither the
claim's current format (its `family_info` is not a mapping) nor its
legacy format (not a sequence), yet both variants' containment tests
accept it as CURRENT format — Python's `'columns' in 'columns'` is a
substring test — so no `UnrecognizedFormat` is raised for it. -/
theorem unrecognized_format_cex :
    claimCurrentFormat strColumnsDoc = false ∧
    claimLegacyFormat strColumnsDoc = false ∧
    ext_format_branch strColumnsDoc = some LoadBranch.current ∧
    basic_format_ok strColumnsDoc = some true ∧
    LoadBranch.current ≠ LoadBranch.unrecognized := by
  decide

/-- C6 (amended): the loaders report `UnrecognizedFormat` exactly when
their own containment-based tests fail, and then (and only on that
raise) the store is reset to the empty default — all ten categories
with their declared schemas and zero records, never partially
populated.  The tests are Python containment, broader than the claim's
format descriptions, so a document matching neither spec format can be
adopted without the error. -/
theorem unrecognized_reset_spec (g : Nat) (doc : Json) :
    (ext_format_branch doc = some LoadBranch.unrecognized →
      load_data_from_file_ext g doc = ⟨true, initJson⟩) ∧
    (basic_format_ok doc = some false →
      load_data_from_file_basic doc = ⟨true, initJson⟩) ∧
    storeOfJson initJson = some initialize_data_structures ∧
    initialize_data_structures.length = 10 ∧
    (∀ sc ∈ initialize_data_structures, sc.2.data = []) := by
  refine ⟨?_, ?_, ?_, rfl, ?_⟩
  · intro h
    rw [load_data_from_file_ext.eq_def, h]
  · intro h
    rw [load_data_from_file_basic.eq_def, h]
  · rfl
  · decide

/-- Witness for the amended C6 at the spec's example `{"foo": 1}`. -/
theorem unrecognized_reset_spec_witness :
    load_data_from_file_ext 0 fooDoc = ⟨true, initJson⟩ ∧
    load_data_from_file_basic fooDoc = ⟨true, initJson⟩ :=
  ⟨(unrecognized_reset_spec 0 fooDoc).1 (by decide),
   (unrecognized_reset_spec 0 fooDoc).2.1 (by decide)⟩

/-- C10: the basic variant accepts a parsed document exactly when the
extended variant's decision takes the current-format branch (both run
the same `'family_info' in doc and 'columns' in doc['family_info']`
test); every document the extended variant migrates as legacy is
rejected by the basic variant, which raises and resets to the empty
default store. -/
theorem variant_load_refinement (doc : Json) :
    (basic_format_ok doc = some true ↔ ext_format_branch doc = some LoadBranch.current) ∧
    (ext_format_branch doc = some LoadBranch.legacy →
      basic_format_ok doc = some false ∧
      load_data_from_file_basic doc = ⟨true, initJson⟩) := by
  have hload : basic_format_ok doc = some false →
      load_data_from_file_basic doc = ⟨true, initJson⟩ := by
    intro h
    rw [load_data_from_file_basic.eq_def, h]
  unfold basic_format_ok ext_format_branch
  cases hf : pyContains "family_info" doc with
  | none =>
      simp only [Option.pure_def, Option.bind_eq_bind, Option.none_bind]
      exact ⟨by simp, by simp⟩
  | some bf =>
      simp only [Option.pure_def, Option.bind_eq_bind, Option.some_bind]
      cases bf
      · simp only [Bool.false_eq_true, if_false, Option.some_bind]
        cases hm : pyContains "members" doc with
        | none =>
            simp only [Option.none_bind]
            exact ⟨by simp, by simp⟩
        | some bm =>
            simp only [Option.some_bind]
            cases bm
            · simp only [Bool.false_eq_true, if_false, Option.some_bind, if_false]
              exact ⟨by simp, by simp⟩
            · simp only [if_true]
              cases hmv : jGet doc "members" with
              | none =>
                  simp only [Option.none_bind]
                  exact ⟨by simp, by simp⟩
              | some m =>
                  simp only [Option.some_bind]
                  cases hma : jsonIsArr m
                  · simp only [Bool.false_eq_true, if_false, Option.some_bind]
                    exact ⟨by simp, by simp⟩
                  · simp only [if_true]
                    have hbasic : basic_format_ok doc = some false := by
                      rw [basic_format_ok, hf]
                      rfl
                    exact ⟨by simp, fun _ => ⟨trivial, hload hbasic⟩⟩
      · simp only [if_true]
        cases hfv : jGet doc "family_info" with
        | none =>
            simp only [Option.none_bind]
            exact ⟨by simp, by simp⟩
        | some fi =>
            simp only [Option.some_bind]
            cases hfc : pyContains "columns" fi with
            | none =>
                simp only [Option.none_bind]
                exact ⟨by simp, by simp⟩
            | some bc =>
                simp only [Option.some_bind]
                cases bc
                · simp only [Bool.false_eq_true, if_false, Option.some_bind]
                  have hbasic : basic_format_ok doc = some false := by
                    rw [basic_format_ok, hf]
                    simp only [Option.pure_def, Option.bind_eq_bind, Option.some_bind,
                      if_true, hfv, Option.some_bind, hfc]
                  cases hm : pyContains "members" doc with
                  | none =>
                      simp only [Option.none_bind]
                      exact ⟨by simp, by simp⟩
                  | some bm =>
                      simp only [Option.some_bind]
                      cases bm
                      · simp only [Bool.false_eq_true, if_false, Option.some_bind, hfv,
                          Option.some_bind]
                        cases hfa : jsonIsArr fi
                        · simp only [Bool.false_eq_true, if_false, Option.some_bind]
                          exact ⟨by simp, by simp⟩
                        · simp only [if_true]
                          exact ⟨by simp, fun _ => ⟨trivial, hload hbasic⟩⟩
                      · simp only [if_true]
                        cases hmv : jGet doc "members" with
                        | none =>
                            simp only [Option.none_bind]
                            exact ⟨by simp, by simp⟩
                        | some m =>
                            simp only [Option.some_bind]
                            cases hma : jsonIsArr m
                            · simp only [Bool.false_eq_true, if_false, Option.some_bind,
                                hfv, Option.some_bind]
                              cases hfa : jsonIsArr fi
                              · simp only [Bool.false_eq_true, if_false, Option.some_bind]
                                exact ⟨by simp, by simp⟩
                              · simp only [if_true]
                                exact ⟨by simp, fun _ => ⟨trivial, hload hbasic⟩⟩
                            · simp only [if_true]
                              exact ⟨by simp, fun _ => ⟨trivial, hload hbasic⟩⟩
                · simp only [if_true]
                  exact ⟨by simp, by simp⟩

/-- Witness for C10 at the legacy document `{"members": [{"name": "Asha"}]}`. -/
theorem variant_load_refinement_witness :
    basic_format_ok ashaDoc = some false ∧
    load_data_from_file_basic ashaDoc = ⟨true, initJson⟩ :=
  (variant_load_refinement ashaDoc).2 (by decide)

theorem transform_asha_eval :
    transform_old_data_format 0 ashaDoc = some (ashaMigratedStore, ashaMigratedSource, 1) := rfl

theorem alHasKey_alSet_self {α : Type} (l : List (String × α)) (k : String) (v : α) :
    alHasKey (alSet l k v) k = true := by
  induction l with
  | nil => simp [alSet, alHasKey]
  | cons x xs ih =>
      simp only [alSet]
      cases hx : x.1 == k
      · simp only [Bool.false_eq_true, if_false, alHasKey_cons, hx, Bool.false_or]
        exact ih
      · simp only [if_true, alHasKey_cons]
        simp

theorem alHasKey_alSet_ne {α : Type} (l : List (String × α)) (k : String) (v : α)
    (k' : String) (h : k' ≠ k) : alHasKey (alSet l k v) k' = alHasKey l k' := by
  have hkk : (k == k') = false := beq_false_of_ne (fun hc => h hc.symm)
  induction l with
  | nil => simp [alSet, alHasKey_cons, hkk, alHasKey]
  | cons x xs ih =>
      simp only [alSet]
      cases hx : x.1 == k
      · simp only [Bool.false_eq_true, if_false, alHasKey_cons, ih]
      · simp only [if_true, alHasKey_cons, hkk, Bool.false_or]
        have hxk : (x.1 == k') = false := by
          rw [eq_of_beq hx]
          exact hkk
        rw [hxk, Bool.false_or]

theorem alGet_eq_some_of_hasKey {α : Type} (l : List (String × α)) (k : String)
    (h : alHasKey l k = true) : ∃ v, alGet l k = some v := by
  induction l with
  | nil => simp [alHasKey] at h
  | cons x xs ih =>
      rw [alHasKey_cons] at h
      rw [alGet_cons]
      cases hx : x.1 == k
      · rw [hx, Bool.false_or] at h
        simp only [Bool.false_eq_true, if_false]
        exact ih h
      · exact ⟨x.2, by simp⟩

theorem memberRename_get_of_ne (kvs1 : List (String × Json)) (k : String)
    (h1 : k ≠ "name") (h2 : k ≠ "Name") :
    alGet (memberRename kvs1) k = alGet kvs1 k := by
  unfold memberRename
  cases hc : (alHasKey kvs1 "name" && !alHasKey kvs1 "Name")
  · simp
  · simp only [if_true]
    cases hv : alGet kvs1 "name"
    · rfl
    · rw [alGet_alSet_ne _ _ _ _ h2, alGet_alPop_ne _ _ _ h1]

theorem memberRename_hasKey_of_ne (kvs1 : List (String × Json)) (k : String)
    (h1 : k ≠ "name") (h2 : k ≠ "Name") :
    alHasKey (memberRename kvs1) k = alHasKey kvs1 k := by
  unfold memberRename
  cases hc : (alHasKey kvs1 "name" && !alHasKey kvs1 "Name")
  · simp
  · simp only [if_true]
    cases hv : alGet kvs1 "name"
    · rfl
    · rw [alHasKey_alSet_ne _ _ _ _ h2, alHasKey_alPop_ne _ _ _ h1]

theorem memberRename_spec (kvs1 : List (String × Json))
    (hnd : (kvs1.map Prod.fst).Nodup)
    (hn : alHasKey kvs1 "name" = true) (hN : alHasKey kvs1 "Name" = false) :
    alGet (memberRename kvs1) "Name" = alGet kvs1 "name" ∧
    alHasKey (memberRename kvs1) "name" = false := by
  unfold memberRename
  rw [hn, hN]
  simp only [Bool.not_false, Bool.and_true]
  obtain ⟨v, hv⟩ := alGet_eq_some_of_hasKey kvs1 "name" hn
  rw [hv]
  simp only [if_true]
  constructor
  · rw [alGet_alSet_self]
  · rw [alHasKey_alSet_ne _ _ _ _ (by decide)]
    exact alHasKey_alPop_self _ _ hnd

theorem transform_step_none (mem : List Json) (sec : String × Category) :
    transform_step mem none sec = none := rfl

theorem foldl_transform_step_none (mem : List Json) (secs : List (String × Category)) :
    secs.foldl (transform_step mem) none = none := by
  induction secs with
  | nil => rfl
  | cons s ss ih => rw [List.foldl_cons, transform_step_none, ih]

theorem transform_step_family (mem : List Json) (outs0 kvs : List (String × Json))
    (gg : Nat) (sec : String × Category) (h : sec.1 = "family_info") :
    transform_step mem (some (outs0, kvs, gg)) sec
      = some (outs0 ++ [(sec.1, mkCatJson sec.2.columns mem)], kvs, gg) := by
  simp only [transform_step, Option.pure_def, Option.bind_eq_bind, Option.some_bind,
    beq_true_of_eq h, if_true]

theorem transform_step_skip (mem : List Json) (outs0 kvs : List (String × Json))
    (gg : Nat) (sec : String × Category) (hfam0 : sec.1 ≠ "family_info")
    (hnotarr : ∀ l, alGet kvs sec.1 ≠ some (.arr l)) :
    transform_step mem (some (outs0, kvs, gg)) sec
      = some (outs0 ++ [(sec.1, mkCatJson sec.2.columns [])], kvs, gg) := by
  simp only [transform_step, Option.pure_def, Option.bind_eq_bind, Option.some_bind,
    beq_false_of_ne hfam0, Bool.false_eq_true, if_false]

theorem transform_step_copy (mem : List Json) (outs0 kvs : List (String × Json))
    (gg : Nat) (sec : String × Category) (l l2 : List Json) (gB : Nat)
    (hfam0 : sec.1 ≠ "family_info")
    (halg : alGet kvs sec.1 = some (.arr l))
    (hml : migrateList migrateAssetRec gg l = some (l2, gB)) :
    transform_step mem (some (outs0, kvs, gg)) sec
      = some (outs0 ++ [(sec.1, mkCatJson sec.2.columns l2)],
          alSet kvs sec.1 (.arr l2), gB) := by
  simp only [transform_step, Option.pure_def, Option.bind_eq_bind, Option.some_bind,
    beq_false_of_ne hfam0, Bool.false_eq_true, if_false, halg, hml]

theorem transform_step_copy_fail (mem : List Json) (outs0 kvs : List (String × Json))
    (gg : Nat) (sec : String × Category) (l : List Json)
    (hfam0 : sec.1 ≠ "family_info")
    (halg : alGet kvs sec.1 = some (.arr l))
    (hml : migrateList migrateAssetRec gg l = none) :
    transform_step mem (some (outs0, kvs, gg)) sec = none := by
  simp only [transform_step, Option.pure_def, Option.bind_eq_bind, Option.some_bind,
    beq_false_of_ne hfam0, Bool.false_eq_true, if_false, halg, hml, Option.none_bind]

theorem forall₂_imp_mem {α β : Type} (R S : α → β → Prop) :
    ∀ (l₁ : List α) (l₂ : List β), (∀ a ∈ l₁, ∀ b, R a b → S a b) →
      List.Forall₂ R l₁ l₂ → List.Forall₂ S l₁ l₂ := by
  intro l₁
  induction l₁ with
  | nil =>
      intro l₂ _ h
      cases h
      exact List.Forall₂.nil
  | cons a l ih =>
      intro l₂ himp h
      cases h with
      | cons hab htail =>
          exact List.Forall₂.cons (himp a (List.mem_cons_self a l) _ hab)
            (ih _ (fun x hx b => himp x (List.mem_cons_of_mem a hx) b) htail)

theorem foldl_transform_step_spec (mem : List Json) :
    ∀ (secs : List (String × Category)) (outs0 kvs : List (String × Json)) (gg : Nat)
      (res : List (String × Json) × List (String × Json) × Nat),
      (secs.map Prod.fst).Nodup →
      (∀ p ∈ secs, p.1 ≠ "family_info") →
      secs.foldl (transform_step mem) (some (outs0, kvs, gg)) = some res →
      ∃ entries kvs2 g2, res = (outs0 ++ entries, kvs2, g2) ∧
        List.Forall₂ (SectionMigrated kvs kvs2) secs entries ∧
        (∀ k, k ∉ secs.map Prod.fst → alGet kvs2 k = alGet kvs k) := by
  intro secs
  induction secs with
  | nil =>
      intro outs0 kvs gg res _ _ h
      rw [List.foldl_nil] at h
      cases h
      exact ⟨[], kvs, gg, by simp, List.Forall₂.nil, fun k _ => rfl⟩
  | cons sec secs ih =>
      intro outs0 kvs gg res hnd hfam h
      simp only [List.map_cons, List.nodup_cons] at hnd
      obtain ⟨hsec_nin, hnd2⟩ := hnd
      have hfam0 : sec.1 ≠ "family_info" := hfam sec (List.mem_cons_self sec secs)
      have hfam2 : ∀ p ∈ secs, p.1 ≠ "family_info" :=
        fun p hp => hfam p (List.mem_cons_of_mem sec hp)
      have hne_tail : ∀ p ∈ secs, p.1 ≠ sec.1 := by
        intro p hp hc
        exact hsec_nin (hc ▸ List.mem_map_of_mem Prod.fst hp)
      rw [List.foldl_cons] at h
      by_cases harr : ∃ l, alGet kvs sec.1 = some (Json.arr l)
      · obtain ⟨l, halg⟩ := harr
        cases hml : migrateList migrateAssetRec gg l with
        | none =>
            rw [transform_step_copy_fail mem outs0 kvs gg sec l hfam0 halg hml,
              foldl_transform_step_none] at h
            cases h
        | some p =>
            rw [transform_step_copy mem outs0 kvs gg sec l p.1 p.2 hfam0 halg hml] at h
            obtain ⟨entries, kvs2, g2, hres, hf2, hpres⟩ :=
              ih _ _ _ _ hnd2 hfam2 h
            refine ⟨(sec.1, mkCatJson sec.2.columns p.1) :: entries, kvs2, g2, ?_, ?_, ?_⟩
            · rw [hres, List.append_assoc]
              rfl
            · refine List.Forall₂.cons ⟨rfl, Or.inl ⟨l, p.1, gg, p.2, halg, hml, rfl, ?_⟩⟩ ?_
              · rw [hpres sec.1 hsec_nin]
                exact alGet_alSet_self _ _ _
              · refine forall₂_imp_mem _ _ _ _ ?_ hf2
                intro q hq e hre
                obtain ⟨he1, hd⟩ := hre
                refine ⟨he1, ?_⟩
                rw [alGet_alSet_ne kvs sec.1 (Json.arr p.1) q.1 (hne_tail q hq)] at hd
                exact hd
            · intro k hk
              have hk2 : k ∉ secs.map Prod.fst := fun hc =>
                hk (List.mem_cons_of_mem _ hc)
              have hk1 : k ≠ sec.1 := fun hc =>
                hk (hc ▸ List.mem_cons_self _ _)
              rw [hpres k hk2, alGet_alSet_ne kvs sec.1 (Json.arr p.1) k hk1]
      · have hnotarr : ∀ l, alGet kvs sec.1 ≠ some (Json.arr l) :=
          fun l hc => harr ⟨l, hc⟩
        rw [transform_step_skip mem outs0 kvs gg sec hfam0 hnotarr] at h
        obtain ⟨entries, kvs2, g2, hres, hf2, hpres⟩ := ih _ _ _ _ hnd2 hfam2 h
        refine ⟨(sec.1, mkCatJson sec.2.columns []) :: entries, kvs2, g2, ?_, ?_, ?_⟩
        · rw [hres, List.append_assoc]
          rfl
        · refine List.Forall₂.cons ⟨rfl, Or.inr ⟨hnotarr, rfl, hpres sec.1 hsec_nin⟩⟩ hf2
        · intro k hk
          exact hpres k (fun hc => hk (List.mem_cons_of_mem _ hc))

theorem foldl_init_spec (mem : List Json) (kvs1 : List (String × Json)) (g1 : Nat)
    (res : List (String × Json) × List (String × Json) × Nat)
    (h : initialize_data_structures.foldl (transform_step mem) (some ([], kvs1, g1))
      = some res) :
    ∃ entries kvs2 g2,
      res = (("family_info",
          mkCatJson ["Name", "Aadhar No.", "PAN no", "Voter id no"] mem) :: entries,
        kvs2, g2) ∧
      List.Forall₂ (SectionMigrated kvs1 kvs2) assetSections entries ∧
      (∀ k, k ∉ assetSections.map Prod.fst → alGet kvs2 k = alGet kvs1 k) := by
  rw [show initialize_data_structures
      = ("family_info", (⟨["Name", "Aadhar No.", "PAN no", "Voter id no"], []⟩ : Category))
        :: assetSections from rfl,
    List.foldl_cons, transform_step_family mem [] kvs1 g1 _ rfl] at h
  obtain ⟨entries, kvs2, g2, hres, hf2, hpres⟩ :=
    foldl_transform_step_spec mem assetSections _ kvs1 g1 res (by decide) (by decide) h
  refine ⟨entries, kvs2, g2, ?_, hf2, hpres⟩
  rw [hres]
  rfl

theorem transform_member_skip (g : Nat) (kvs0 : List (String × Json))
    (hnotarr : ∀ l,
      alGet kvs0 (if alHasKey kvs0 "members" then "members" else "family_info")
        ≠ some (Json.arr l)) :
    transform_old_data_format g (.obj kvs0)
      = (do
          let og ← initialize_data_structures.foldl (transform_step []) (some ([], kvs0, g))
          pure (Json.obj og.1, Json.obj og.2.1, og.2.2)) := by
  simp only [transform_old_data_format, Option.pure_def, Option.bind_eq_bind]
  cases halg : alGet kvs0 (if alHasKey kvs0 "members" then "members" else "family_info") with
  | none => rfl
  | some v =>
      cases v with
      | arr l => exact absurd halg (hnotarr l)
      | str s => rfl
      | num n => rfl
      | bool b => rfl
      | null => rfl
      | obj o => rfl

theorem transform_member_arr (g : Nat) (kvs0 : List (String × Json)) (l mem2 : List Json)
    (g1 : Nat)
    (halg : alGet kvs0 (if alHasKey kvs0 "members" then "members" else "family_info")
      = some (Json.arr l))
    (hml : migrateList migrateMemberRec g l = some (mem2, g1)) :
    transform_old_data_format g (.obj kvs0)
      = (do
          let og ← initialize_data_structures.foldl (transform_step mem2)
            (some ([], alSet kvs0
              (if alHasKey kvs0 "members" then "members" else "family_info")
              (Json.arr mem2), g1))
          pure (Json.obj og.1, Json.obj og.2.1, og.2.2)) := by
  simp only [transform_old_data_format, Option.pure_def, Option.bind_eq_bind, halg, hml,
    Option.map_some, Option.some_bind]
  rfl

theorem transform_member_fail (g : Nat) (kvs0 : List (String × Json)) (l : List Json)
    (halg : alGet kvs0 (if alHasKey kvs0 "members" then "members" else "family_info")
      = some (Json.arr l))
    (hml : migrateList migrateMemberRec g l = none) :
    transform_old_data_format g (.obj kvs0) = none := by
  simp only [transform_old_data_format, Option.pure_def, Option.bind_eq_bind, halg, hml,
    Option.map_none, Option.none_bind]
  rfl

/-- C4 counterexample: `{"members": 5, "family_info": [{"name": "A"}]}`
has a `family_info` entry that is a bare sequence of member records and
the extended loader routes it to legacy migration, yet the migrator
reads members only from the present non-list `members` key
(`old_member_key` selection, `investment_catalogue_app.py:395-399`), so
NOTHING is appended into `family_info.data`: no id assigned, no rename,
the member record dropped — against the claim's "assigns a fresh
identifier to each member record lacking one ... appends the members
into family_info's data". -/
theorem legacy_migration_shadow_cex :
    claimLegacyFormat shadowDoc = true ∧
    claimCurrentFormat shadowDoc = false ∧
    ext_format_branch shadowDoc = some LoadBranch.legacy ∧
    transform_old_data_format 0 shadowDoc
      = some (.obj (("family_info",
            mkCatJson ["Name", "Aadhar No.", "PAN no", "Voter id no"] [])
          :: emptyAssetCatsJson),
        shadowDoc, 0) :=
  ⟨by decide, by decide, by decide, rfl⟩

/-- C4 (amended): migration reads member records from the `members`
entry whenever that key is present — regardless of its value — else
from `family_info`, and migrates them only when the selected entry is a
bare sequence (a non-sequence `members` entry therefore shadows a
bare-sequence `family_info` entry and nothing is appended).  Per
migrated member record: a fresh identifier is assigned exactly when one
is lacking, and `name` is renamed to `Name` when `Name` is absent,
leaving no `name` key.  Per asset record of another recognized category
present as a bare sequence: the record is copied verbatim apart from
assigning a missing identifier.  Document-wide, for EVERY object
document the migration accepts: the result holds the ten declared
categories in order, `family_info.data` is exactly the migrated member
list (empty when the selected entry is not a sequence), and each asset
category holds the id-assigned copy of the corresponding bare-list
source entry (empty otherwise), the mutated lists being written back
into the source document.  `{"members": [{"name": "Asha"}]}` yields a
`family_info` record with `Name == "Asha"`, the freshly generated id,
and no leftover `name` attribute. -/
theorem legacy_migration_spec :
    (∀ (g : Nat) (kvs : List (String × Json)), (kvs.map Prod.fst).Nodup →
      ∃ kvs2 g2, migrateMemberRec g (.obj kvs) = some (.obj kvs2, g2) ∧
        alHasKey kvs2 "id" = true ∧
        (alHasKey kvs "id" = false →
          alGet kvs2 "id" = some (.str (genId g)) ∧ g2 = g + 1) ∧
        (alHasKey kvs "id" = true → alGet kvs2 "id" = alGet kvs "id" ∧ g2 = g) ∧
        (alHasKey kvs "name" = true → alHasKey kvs "Name" = false →
          alGet kvs2 "Name" = alGet kvs "name" ∧ alHasKey kvs2 "name" = false)) ∧
    (∀ (g : Nat) (kvs : List (String × Json)),
      migrateAssetRec g (.obj kvs)
        = some (if alHasKey kvs "id" then (.obj kvs, g)
            else (.obj (alSet kvs "id" (.str (genId g))), g + 1))) ∧
    (∀ (g : Nat) (kvs0 : List (String × Json)) (st src : Json) (g2 : Nat),
      transform_old_data_format g (.obj kvs0) = some (st, src, g2) →
      ∃ entries kvs2 famMem,
        st = .obj (("family_info",
            mkCatJson ["Name", "Aadhar No.", "PAN no", "Voter id no"] famMem)
          :: entries) ∧
        src = .obj kvs2 ∧
        ((∃ l g1,
            alGet kvs0 (if alHasKey kvs0 "members" then "members" else "family_info")
              = some (.arr l) ∧
            migrateList migrateMemberRec g l = some (famMem, g1) ∧
            alGet kvs2 (if alHasKey kvs0 "members" then "members" else "family_info")
              = some (.arr famMem)) ∨
         ((∀ l,
            alGet kvs0 (if alHasKey kvs0 "members" then "members" else "family_info")
              ≠ some (.arr l)) ∧ famMem = [])) ∧
        List.Forall₂ (SectionMigrated kvs0 kvs2) assetSections entries) ∧
    (transform_old_data_format 0 ashaDoc = some (ashaMigratedStore, ashaMigratedSource, 1) ∧
      jGet ashaMigratedStore "family_info"
        = some (mkCatJson ["Name", "Aadhar No.", "PAN no", "Voter id no"] [ashaMigrated]) ∧
      ashaMigrated = .obj [("id", .str (genId 0)), ("Name", .str "Asha")] ∧
      alGet [("id", Json.str (genId 0)), ("Name", Json.str "Asha")] "Name"
        = some (.str "Asha") ∧
      alHasKey [("id", Json.str (genId 0)), ("Name", Json.str "Asha")] "name" = false ∧
      alGet [("id", Json.str (genId 0)), ("Name", Json.str "Asha")] "id"
        = some (.str (genId 0))) := by
  refine ⟨?_, ?_, ?_, transform_asha_eval, rfl, rfl, rfl, by decide, rfl⟩
  · intro g kvs hnd
    refine ⟨_, _, rfl, ?_, ?_, ?_, ?_⟩
    · rw [memberRename_hasKey_of_ne _ _ (by decide) (by decide)]
      cases hid : alHasKey kvs "id"
      · simp only [Bool.false_eq_true, if_false]
        exact alHasKey_alSet_self _ _ _
      · simp only [if_true]
        exact hid
    · intro hid
      rw [hid]
      simp only [Bool.false_eq_true, if_false]
      constructor
      · rw [memberRename_get_of_ne _ _ (by decide) (by decide)]
        exact alGet_alSet_self _ _ _
      · trivial
    · intro hid
      rw [hid]
      simp only [if_true]
      constructor
      · rw [memberRename_get_of_ne _ _ (by decide) (by decide)]
      · trivial
    · intro hn hN
      cases hid : alHasKey kvs "id"
      · simp only [Bool.false_eq_true, if_false]
        have hn1 : alHasKey (alSet kvs "id" (Json.str (genId g))) "name" = true := by
          rw [alHasKey_alSet_ne _ _ _ _ (by decide)]
          exact hn
        have hN1 : alHasKey (alSet kvs "id" (Json.str (genId g))) "Name" = false := by
          rw [alHasKey_alSet_ne _ _ _ _ (by decide)]
          exact hN
        have hnd1 : ((alSet kvs "id" (Json.str (genId g))).map Prod.fst).Nodup := by
          rw [keys_alSet_not_mem _ _ _ hid, List.nodup_append]
          refine ⟨hnd, List.nodup_singleton _, ?_⟩
          intro a ha hb
          rw [List.mem_singleton] at hb
          exact (alHasKey_false_iff _ _).mp hid (hb ▸ ha)
        obtain ⟨e1, e2⟩ := memberRename_spec _ hnd1 hn1 hN1
        refine ⟨?_, e2⟩
        rw [e1, alGet_alSet_ne _ _ _ _ (by decide)]
      · simp only [if_true]
        exact memberRename_spec _ hnd hn hN
  · intro g kvs
    cases hid : alHasKey kvs "id" <;> simp [migrateAssetRec, hid]
  · intro g kvs0 st src g2 htr
    have hkey_nin : (if alHasKey kvs0 "members" then "members" else "family_info")
        ∉ assetSections.map Prod.fst := by
      cases alHasKey kvs0 "members" <;> simp only [Bool.false_eq_true, if_false, if_true]
        <;> decide
    have hsec_ne : ∀ p ∈ assetSections,
        p.1 ≠ (if alHasKey kvs0 "members" then "members" else "family_info") := by
      intro p hp hc
      exact hkey_nin (hc ▸ List.mem_map_of_mem Prod.fst hp)
    by_cases harr : ∃ l,
        alGet kvs0 (if alHasKey kvs0 "members" then "members" else "family_info")
          = some (Json.arr l)
    · obtain ⟨l, halg⟩ := harr
      cases hml : migrateList migrateMemberRec g l with
      | none =>
          rw [transform_member_fail g kvs0 l halg hml] at htr
          cases htr
      | some mg =>
          rw [transform_member_arr g kvs0 l mg.1 mg.2 halg hml] at htr
          cases hfold : initialize_data_structures.foldl (transform_step mg.1)
              (some ([], alSet kvs0
                (if alHasKey kvs0 "members" then "members" else "family_info")
                (Json.arr mg.1), mg.2)) with
          | none =>
              rw [hfold] at htr
              cases htr
          | some res =>
              rw [hfold] at htr
              simp only [Option.pure_def, Option.bind_eq_bind, Option.some_bind,
                Option.some.injEq, Prod.mk.injEq] at htr
              obtain ⟨hst, hsrc, hg2⟩ := htr
              obtain ⟨entries, kvs2, g2x, hres, hf2, hpres⟩ := foldl_init_spec _ _ _ _ hfold
              refine ⟨entries, kvs2, mg.1, ?_, ?_, ?_, ?_⟩
              · rw [← hst, hres]
              · rw [← hsrc, hres]
              · refine Or.inl ⟨l, mg.2, halg, by rw [hml], ?_⟩
                rw [hpres _ hkey_nin, alGet_alSet_self]
              · refine forall₂_imp_mem _ _ _ _ ?_ hf2
                intro q hq e hre
                obtain ⟨he1, hd⟩ := hre
                refine ⟨he1, ?_⟩
                rw [alGet_alSet_ne kvs0 _ (Json.arr mg.1) q.1 (hsec_ne q hq)] at hd
                exact hd
    · have hnotarr : ∀ l,
          alGet kvs0 (if alHasKey kvs0 "members" then "members" else "family_info")
            ≠ some (Json.arr l) := fun l hc => harr ⟨l, hc⟩
      rw [transform_member_skip g kvs0 hnotarr] at htr
      cases hfold : initialize_data_structures.foldl (transform_step [])
          (some ([], kvs0, g)) with
      | none =>
          rw [hfold] at htr
          cases htr
      | some res =>
          rw [hfold] at htr
          simp only [Option.pure_def, Option.bind_eq_bind, Option.some_bind,
            Option.some.injEq, Prod.mk.injEq] at htr
          obtain ⟨hst, hsrc, hg2⟩ := htr
          obtain ⟨entries, kvs2, g2x, hres, hf2, hpres⟩ := foldl_init_spec _ _ _ _ hfold
          exact ⟨entries, kvs2, [], by rw [← hst, hres], by rw [← hsrc, hres],
            Or.inr ⟨hnotarr, rfl⟩, hf2⟩

/-- Witness for the amended C4: the per-record part at a concrete member
record and the document-level part at the migrated Asha document. -/
theorem legacy_migration_spec_witness :
    (∃ kvs2 g2, migrateMemberRec 5 (.obj [("name", Json.str "B")]) = some (.obj kvs2, g2) ∧
      alHasKey kvs2 "id" = true ∧
      (alHasKey [("name", Json.str "B")] "id" = false →
        alGet kvs2 "id" = some (.str (genId 5)) ∧ g2 = 5 + 1) ∧
      (alHasKey [("name", Json.str "B")] "id" = true →
        alGet kvs2 "id" = alGet [("name", Json.str "B")] "id" ∧ g2 = 5) ∧
      (alHasKey [("name", Json.str "B")] "name" = true →
        alHasKey [("name", Json.str "B")] "Name" = false →
        alGet kvs2 "Name" = alGet [("name", Json.str "B")] "name" ∧
        alHasKey kvs2 "name" = false)) ∧
    (∃ entries kvs2 famMem,
      ashaMigratedStore = Json.obj (("family_info",
          mkCatJson ["Name", "Aadhar No.", "PAN no", "Voter id no"] famMem) :: entries) ∧
      ashaMigratedSource = Json.obj kvs2 ∧
      ((∃ l g1,
          alGet [("members", Json.arr [Json.obj [("name", Json.str "Asha")]])]
              (if alHasKey [("members", Json.arr [Json.obj [("name", Json.str "Asha")]])]
                "members" then "members" else "family_info")
            = some (.arr l) ∧
          migrateList migrateMemberRec 0 l = some (famMem, g1) ∧
          alGet kvs2
              (if alHasKey [("members", Json.arr [Json.obj [("name", Json.str "Asha")]])]
                "members" then "members" else "family_info")
            = some (.arr famMem)) ∨
       ((∀ l,
          alGet [("members", Json.arr [Json.obj [("name", Json.str "Asha")]])]
              (if alHasKey [("members", Json.arr [Json.obj [("name", Json.str "Asha")]])]
                "members" then "members" else "family_info")
            ≠ some (.arr l)) ∧ famMem = [])) ∧
      List.Forall₂
        (SectionMigrated [("members", Json.arr [Json.obj [("name", Json.str "Asha")]])] kvs2)
        assetSections entries) :=
  ⟨legacy_migration_spec.1 5 [("name", Json.str "B")] (by decide),
   legacy_migration_spec.2.2.1 0 [("members", Json.arr [Json.obj [("name", Json.str "Asha")]])]
     ashaMigratedStore ashaMigratedSource 1 rfl⟩

/-- C5 counterexample: migrating `{"members": [{"name": "Asha"}]}`
returns a source document whose member record now carries `id` and
`Name` and no `name` — the source was mutated in place, not left
unchanged. -/
theorem migration_source_mutation_cex :
    transform_old_data_format 0 ashaDoc = some (ashaMigratedStore, ashaMigratedSource, 1) ∧
    ashaMigratedSource ≠ ashaDoc := by
  refine ⟨transform_asha_eval, ?_⟩
  simp [ashaMigratedSource, ashaDoc, ashaMigrated, genId]

/-- C5 (amended): migration builds a new top-level store value but
mutates the legacy member records in place: after the call the source
document's `members` entry holds exactly the migrated records — the
very list placed into the result's `family_info.data` — rather than
the original records. -/
theorem migration_source_mutation (g : Nat) (members mem2 : List Json) (g1 : Nat)
    (h1 : migrateList migrateMemberRec g members = some (mem2, g1)) :
    transform_old_data_format g (.obj [("members", .arr members)])
      = some (.obj (("family_info",
            mkCatJson ["Name", "Aadhar No.", "PAN no", "Voter id no"] mem2)
          :: emptyAssetCatsJson),
        .obj [("members", .arr mem2)], g1) := by
  simp [transform_old_data_format, transform_step, alGet, alHasKey, alSet,
    initialize_data_structures, h1, mkCatJson, List.find?, emptyAssetCatsJson,
    jsonOfCategory, jsonOfRecord]

/-- Witness for the amended C5 at the Asha document. -/
theorem migration_source_mutation_witness :
    transform_old_data_format 0 ashaDoc
      = some (.obj (("family_info",
            mkCatJson ["Name", "Aadhar No.", "PAN no", "Voter id no"] [ashaMigrated])
          :: emptyAssetCatsJson),
        .obj [("members", .arr [ashaMigrated])], 1) :=
  migration_source_mutation 0 [.obj [("name", Json.str "Asha")]] [ashaMigrated] 1 rfl

theorem alGet_mem {α : Type} (l : List (String × α)) (k : String) (v : α)
    (h : alGet l k = some v) : (k, v) ∈ l := by
  induction l with
  | nil => simp [alGet] at h
  | cons x xs ih =>
      rw [alGet_cons] at h
      cases hx : x.1 == k
      · rw [hx] at h
        simp only [Bool.false_eq_true, if_false] at h
        exact List.mem_cons_of_mem x (ih h)
      · rw [hx] at h
        simp only [if_true, Option.some.injEq] at h
        have hk : x.1 = k := eq_of_beq hx
        have hxkv : x = (k, v) := by
          cases x
          simp_all
        rw [← hxkv]
        exact List.mem_cons_self x xs

theorem strListOfJson_map_str (xs : List String) :
    strListOfJson (xs.map Json.str) = some xs := by
  induction xs with
  | nil => rfl
  | cons x xs ih =>
      simp only [strListOfJson] at ih
      simp only [List.map_cons, strListOfJson, List.mapM_cons, ih, Option.pure_def,
        Option.bind_eq_bind, Option.some_bind]

theorem valOfJson_jsonOfVal (v : Val) : valOfJson (jsonOfVal v) = some v := by
  cases v with
  | s w => rfl
  | ls xs =>
      simp only [jsonOfVal, valOfJson, strListOfJson_map_str]
      rfl

theorem recordOfJson_jsonOfRecord (r : Record) :
    recordOfJson (jsonOfRecord r) = some r := by
  induction r with
  | nil => rfl
  | cons kv r ih =>
      simp only [jsonOfRecord, recordOfJson] at ih ⊢
      simp only [List.map_cons, List.mapM_cons, valOfJson_jsonOfVal, ih, Option.pure_def,
        Option.bind_eq_bind, Option.some_bind, Option.map_some]
      rfl

theorem mapM_recordOfJson_map (data : List Record) :
    (data.map jsonOfRecord).mapM recordOfJson = some data := by
  induction data with
  | nil => rfl
  | cons r rs ih =>
      simp only [List.map_cons, List.mapM_cons, recordOfJson_jsonOfRecord, ih,
        Option.pure_def, Option.bind_eq_bind, Option.some_bind]

theorem categoryOfJson_jsonOfCategory (c : Category) :
    categoryOfJson (jsonOfCategory c) = some c := by
  cases c with
  | mk cols data =>
      simp only [jsonOfCategory, categoryOfJson, strListOfJson_map_str,
        mapM_recordOfJson_map, Option.pure_def, Option.bind_eq_bind, Option.some_bind]

theorem storeOfJson_jsonOfStore (s : Store) : storeOfJson (jsonOfStore s) = some s := by
  induction s with
  | nil => rfl
  | cons sc s ih =>
      simp only [jsonOfStore, storeOfJson] at ih ⊢
      simp only [List.map_cons, List.mapM_cons, categoryOfJson_jsonOfCategory, ih,
        Option.pure_def, Option.bind_eq_bind, Option.some_bind, Option.map_some]
      rfl

theorem alUpdate_cons_of_not_mem {α : Type} (x : String × α) (B : List (String × α))
    (h : ∀ kv ∈ B, kv.1 ≠ x.1) :
    ∀ A : List (String × α), alUpdate (x :: A) B = x :: alUpdate A B := by
  induction B with
  | nil => intro A; rfl
  | cons b B' ih =>
      intro A
      have hb : (x.1 == b.1) = false :=
        beq_false_of_ne (fun hc => h b (List.mem_cons_self b B') hc.symm)
      have e : alSet (x :: A) b.1 b.2 = x :: alSet A b.1 b.2 := by
        simp only [alSet, hb, Bool.false_eq_true, if_false]
      show alUpdate (alSet (x :: A) b.1 b.2) B' = x :: alUpdate (alSet A b.1 b.2) B'
      rw [e]
      exact ih (fun kv hkv => h kv (List.mem_cons_of_mem b hkv)) _

theorem alUpdate_eq_self_of_keys {α : Type} :
    ∀ (B A : List (String × α)), A.map Prod.fst = B.map Prod.fst →
      (B.map Prod.fst).Nodup → alUpdate A B = B := by
  intro B
  induction B with
  | nil =>
      intro A h _
      have : A = [] := List.map_eq_nil_iff.mp h
      rw [this]
      rfl
  | cons b B' ih =>
      intro A hk hnd
      cases A with
      | nil => simp at hk
      | cons a A' =>
          simp only [List.map_cons, List.cons.injEq] at hk
          obtain ⟨hab, hk'⟩ := hk
          simp only [List.map_cons, List.nodup_cons] at hnd
          obtain ⟨hb_notin, hnd'⟩ := hnd
          have e1 : alSet (a :: A') b.1 b.2 = (b.1, b.2) :: A' := by
            simp only [alSet, beq_true_of_eq hab, if_true]
          show alUpdate (alSet (a :: A') b.1 b.2) B' = b :: B'
          rw [e1]
          have hnotin : ∀ kv ∈ B', kv.1 ≠ (b.1, b.2).1 := by
            intro kv hkv hc
            exact hb_notin (hc ▸ List.mem_map_of_mem Prod.fst hkv)
          rw [alUpdate_cons_of_not_mem _ _ hnotin A']
          rw [ih A' hk' hnd']

/-- C8: `deserialize(serialize(store))` through the basic variant's
current-format load branch reconstructs the store exactly: the dumped
document is accepted without raising, and parsing the adopted store
back yields the original category contents field-for-field, `id` and
`holders` included. -/
theorem serialize_roundtrip_spec (s : Store)
    (hk : s.map Prod.fst = initialize_data_structures.map Prod.fst) :
    (load_data_from_file_basic (jsonOfStore s)).raised = false ∧
    storeOfJson (load_data_from_file_basic (jsonOfStore s)).store = some s := by
  have hkeysp : (s.map (fun sc => (sc.1, jsonOfCategory sc.2))).map Prod.fst
      = initialize_data_structures.map Prod.fst := by
    rw [List.map_map]
    exact hk
  have hfam : alHasKey (s.map (fun sc => (sc.1, jsonOfCategory sc.2))) "family_info"
      = true := by
    cases hb : alHasKey (s.map (fun sc => (sc.1, jsonOfCategory sc.2))) "family_info"
    · exfalso
      have hmem := (alHasKey_false_iff _ _).mp hb
      rw [hkeysp] at hmem
      exact hmem (by decide)
    · rfl
  obtain ⟨fi, hfi⟩ := alGet_eq_some_of_hasKey _ _ hfam
  have hfi_mem := alGet_mem _ _ _ hfi
  rw [List.mem_map] at hfi_mem
  obtain ⟨sc, _, hsc⟩ := hfi_mem
  have hfi_cat : fi = jsonOfCategory sc.2 := by
    have := congrArg Prod.snd hsc
    simpa using this.symm
  have hcols : pyContains "columns" fi = some true := by
    rw [hfi_cat]
    cases sc.2
    rfl
  have hbasic : basic_format_ok (jsonOfStore s) = some true := by
    rw [basic_format_ok]
    rw [show pyContains "family_info" (jsonOfStore s)
      = some (alHasKey (s.map (fun sc => (sc.1, jsonOfCategory sc.2))) "family_info")
      from rfl]
    rw [hfam]
    simp only [if_true, Option.pure_def, Option.bind_eq_bind, Option.some_bind]
    rw [show jGet (jsonOfStore s) "family_info"
      = alGet (s.map (fun sc => (sc.1, jsonOfCategory sc.2))) "family_info" from rfl]
    rw [hfi, Option.some_bind, hcols]
  have hload : load_data_from_file_basic (jsonOfStore s)
      = ⟨false, .obj (alUpdate
          (initialize_data_structures.map (fun sc => (sc.1, jsonOfCategory sc.2)))
          (s.map (fun sc => (sc.1, jsonOfCategory sc.2))))⟩ := by
    rw [load_data_from_file_basic.eq_def, hbasic]
    rfl
  have hupd : alUpdate
      (initialize_data_structures.map (fun sc => (sc.1, jsonOfCategory sc.2)))
      (s.map (fun sc => (sc.1, jsonOfCategory sc.2)))
      = s.map (fun sc => (sc.1, jsonOfCategory sc.2)) := by
    apply alUpdate_eq_self_of_keys
    · rw [List.map_map, List.map_map]
      exact hk.symm ▸ rfl
    · rw [hkeysp]
      decide
  rw [hload, hupd]
  exact ⟨rfl, storeOfJson_jsonOfStore s⟩

/-- Witness for C8 at a populated ten-category store. -/
theorem serialize_roundtrip_spec_witness :
    (load_data_from_file_basic (jsonOfStore roundtripStore)).raised = false ∧
    storeOfJson (load_data_from_file_basic (jsonOfStore roundtripStore)).store
      = some roundtripStore :=
  serialize_roundtrip_spec roundtripStore (by decide)

end Wealth
